import Mathlib

/-!
Verification of the table-transformation core of the Single_Transistor_SA
repository (src/OPS/DF_OPS.py and the SI formatter of src/main_app.py),
as a shallow embedding in Lean 4.

Modelling conventions:
* Python floats are idealised as exact rationals (ℚ).  `math.pi` is embedded
  as the exact value of the IEEE-754 double that Python's `math.pi` denotes.
* A pandas DataFrame is a list of rows plus an ordered column-name list; a row
  is a partial map from column names to cell values (number, string or bool),
  which is how the source accesses cells (by column name).  Boolean-mask
  filtering keeps index alignment in pandas; the embedding processes each
  source row together with its own original values, which is what the index
  alignment of `temp_copy`, `self.mod_df` and `self.df` amounts to (all three
  share the same index, and `self.df['W'] == self.mod_df['W']` row-wise).
* Python exceptions are an `Err` code returned next to the updated object
  state: `parseError` is the ValueError of `parse_condition`, `formatError`
  the ValueError of `parse_from_number` / `float`, `insufficientConditions`
  the `Exception("The conditions are not sufficient")`, and `missingColumn`
  the pandas KeyError for a missing column.
* `re.match` anchors at the start only and backtracks greedily; the condition
  parser below reproduces exactly that search order for the source pattern.
-/

/-! ## Characters and digit strings -/

/-- Numeric value of a decimal digit character (codepoint minus 48). -/
def charVal (c : Char) : ℕ := c.toNat - 48

/-- The regex class `\d` — an ASCII decimal digit. -/
def isDigitChar (c : Char) : Bool := 48 ≤ c.toNat && c.toNat ≤ 57

/-- The decimal digit character for a value below ten. -/
def digitChar (d : ℕ) : Char := Char.ofNat (48 + d)

/-- The regex class `\s` — Python's whitespace characters. -/
def isWsChar (c : Char) : Bool :=
  c = ' ' || c = '\t' || c = '\n' || c = '\r' || c = '\x0b' || c = '\x0c'

/-- Value of a big-endian digit-character list (how `float`/`re` read runs of
digits left to right). -/
def valBEN (l : List Char) : ℕ := l.foldl (fun a c => 10 * a + charVal c) 0

/-- Leading `[-+]?` of the source's numeric regexes: the sign as a rational
factor and the remaining characters. -/
def signSplit (cs : List Char) : ℚ × List Char :=
  match cs with
  | [] => (1, [])
  | c :: rest =>
    if c = '-' then (-1, rest)
    else if c = '+' then (1, rest)
    else (1, c :: rest)

/-- Same as `signSplit` with an integer sign, for exponents. -/
def signSplitInt (cs : List Char) : ℤ × List Char :=
  match cs with
  | [] => (1, [])
  | c :: rest =>
    if c = '-' then (-1, rest)
    else if c = '+' then (1, rest)
    else (1, c :: rest)

/-! ## `parse_from_number` (DF_OPS.py lines 15–32)

The source matches `([-+]?\d*\.?\d+)([TGMkmunpf]?)` with `re.match`: the
greedy mantissa takes a maximal digit run, then a dot only when at least one
digit follows it; one suffix character is consumed when it belongs to the
class; everything after the match is ignored.  `parseMantissa` returns the
mantissa's value and the characters after it. -/

/-- Group 1 of the regex of `parse_from_number`: the leading signed decimal
mantissa, `none` when the regex cannot match at the start. -/
def parseMantissa (cs : List Char) : Option (ℚ × List Char) :=
  let sc := signSplit cs
  let d1 := sc.2.takeWhile isDigitChar
  let cs2 := sc.2.dropWhile isDigitChar
  match cs2 with
  | [] => if d1 = [] then none else some (sc.1 * (valBEN d1 : ℚ), [])
  | c :: cs3 =>
    if c = '.' then
      let d2 := cs3.takeWhile isDigitChar
      let cs4 := cs3.dropWhile isDigitChar
      if d2 = [] then
        if d1 = [] then none else some (sc.1 * (valBEN d1 : ℚ), c :: cs3)
      else
        some (sc.1 * ((valBEN d1 : ℚ) + (valBEN d2 : ℚ) / 10 ^ d2.length), cs4)
    else if d1 = [] then none else some (sc.1 * (valBEN d1 : ℚ), c :: cs3)

/-- The `units` dictionary of `parse_from_number`, restricted to the
single-character suffixes of the regex class `[TGMkmunpf]`. -/
def siSuffix (c : Char) : Option ℚ :=
  if c = 'T' then some (10 ^ 12)
  else if c = 'G' then some (10 ^ 9)
  else if c = 'M' then some (10 ^ 6)
  else if c = 'k' then some (10 ^ 3)
  else if c = 'm' then some (1 / 10 ^ 3)
  else if c = 'u' then some (1 / 10 ^ 6)
  else if c = 'n' then some (1 / 10 ^ 9)
  else if c = 'p' then some (1 / 10 ^ 12)
  else if c = 'f' then some (1 / 10 ^ 15)
  else none

/-- Source `parse_from_number(formatted_value)`: decode an SI-suffixed numeric string;
`none` is the raised ValueError.  Group 2 (`[TGMkmunpf]?`) matches one
character when it is in the class and the empty string otherwise (scale 1);
characters after the match are ignored by `re.match`. -/
def parse_from_number (s : String) : Option ℚ :=
  match parseMantissa s.data with
  | none => none
  | some (q, rest) =>
    match rest with
    | [] => some q
    | c :: _ =>
      match siSuffix c with
      | some scale => some (q * scale)
      | none => some q

/-! ## Python `float` (used by `compute_conditional_df` for condition targets) -/

/-- Python's `float(text)` on a plain numeric literal: optional sign, digits
with an optional dot (either side of the dot may be empty but not both), an
optional exponent part, and nothing after.  `none` is the raised ValueError. -/
def pyFloat (s : String) : Option ℚ :=
  let sc := signSplit s.data
  let d1 := sc.2.takeWhile isDigitChar
  let cs2 := sc.2.dropWhile isDigitChar
  let mant : Option (ℚ × List Char) :=
    match cs2 with
    | [] => if d1 = [] then none else some ((valBEN d1 : ℚ), [])
    | c :: cs3 =>
      if c = '.' then
        let d2 := cs3.takeWhile isDigitChar
        let cs4 := cs3.dropWhile isDigitChar
        if d1 = [] && d2 = [] then none
        else some ((valBEN d1 : ℚ) + (valBEN d2 : ℚ) / 10 ^ d2.length, cs4)
      else if d1 = [] then none else some ((valBEN d1 : ℚ), c :: cs3)
  match mant with
  | none => none
  | some (m, rest) =>
    match rest with
    | [] => some (sc.1 * m)
    | e :: cs5 =>
      if e = 'e' || e = 'E' then
        let esc := signSplitInt cs5
        let ed := esc.2.takeWhile isDigitChar
        let tail := esc.2.dropWhile isDigitChar
        if ed ≠ [] && tail = [] then
          some (sc.1 * m * (10 : ℚ) ^ (esc.1 * (valBEN ed : ℤ)))
        else none
      else none

/-! ## `parse_condition` (DF_OPS.py lines 5–13)

`re.match(r'(\S+)\s*(=|<|>)\s*(\S+)', condition)`: the first `\S+` starts
with a maximal non-whitespace run and backtracks from the longest length
down; `\s*` then has to end at an operator (operators are non-whitespace, so
the maximal whitespace run is the only candidate); the final `\S+` is again
maximal.  `tryLens` replays the backtracking over the first group's length. -/

/-- The alternation `(=|<|>)` of the condition pattern. -/
def isOpChar (c : Char) : Bool := c = '=' || c = '<' || c = '>'

/-- One backtracking attempt: first group fixed to `lhs`, the regex's
remainder matched against `rest`. -/
def attemptAt (lhs rest : List Char) :
    Option (List Char × Char × List Char) :=
  match rest.dropWhile isWsChar with
  | [] => none
  | c :: rest2 =>
    if isOpChar c then
      let rhs := (rest2.dropWhile isWsChar).takeWhile (fun d => !isWsChar d)
      if rhs = [] then none else some (lhs, c, rhs)
    else none

/-- Backtracking loop of the greedy `\S+`: try first-group lengths from `j`
down to 1. -/
def tryLens (cs : List Char) : ℕ → Option (List Char × Char × List Char)
  | 0 => none
  | j + 1 =>
    match attemptAt (cs.take (j + 1)) (cs.drop (j + 1)) with
    | some r => some r
    | none => tryLens cs j

/-- The anchored match of the condition pattern against a character list. -/
def matchCond (cs : List Char) : Option (List Char × Char × List Char) :=
  tryLens cs (cs.takeWhile (fun d => !isWsChar d)).length

/-- Source `parse_condition(condition)`: the `(lhs, operator, rhs)` groups, `none`
for the raised `ValueError(f"Invalid condition format: ...")`. -/
def parse_condition (s : String) : Option (String × Char × String) :=
  match matchCond s.data with
  | none => none
  | some (l, c, r) => some (⟨l⟩, c, ⟨r⟩)

/-! ## `format_with_units` (main_app.py lines 9–17) -/

/-- The parallel `units`/`scales` lists of `format_with_units`, zipped. -/
def siScales : List (String × ℚ) :=
  [("T", 10 ^ 12), ("G", 10 ^ 9), ("M", 10 ^ 6), ("k", 10 ^ 3), ("", 1),
   ("m", 1 / 10 ^ 3), ("u", 1 / 10 ^ 6), ("n", 1 / 10 ^ 9),
   ("p", 1 / 10 ^ 12), ("f", 1 / 10 ^ 15)]

/-- The `for unit, scale in zip(units, scales)` loop: first entry with
`abs(value) >= scale or unit == "f"`. -/
def pickUnitGo (v : ℚ) : List (String × ℚ) → Option (String × ℚ)
  | [] => none
  | (u, scale) :: rest =>
    if scale ≤ |v| ∨ u = "f" then some (u, scale) else pickUnitGo v rest

/-- Decimal digit characters of a natural number, most significant first. -/
def natStrChars (k : ℕ) : List Char :=
  if k = 0 then ['0'] else ((Nat.digits 10 k).reverse.map digitChar)

/-- Exactly two fractional digit characters, as `"%.2f"` always prints. -/
def twoFracChars (f : ℕ) : List Char := [digitChar (f / 10), digitChar (f % 10)]

/-- The character string `f"{m:.2f}"` produces for `m = n / 100`: optional
minus sign, integer part, dot, two fractional digits. -/
def intDotChars (n : ℤ) : List Char :=
  (if n < 0 then ['-'] else []) ++
    natStrChars (n.natAbs / 100) ++ '.' :: twoFracChars (n.natAbs % 100)

/-- Source `format_with_units(value)`: pick the unit, format `value / scale` to two
decimal places (`f"{...:.2f}"`, idealised as rounding `100 * value / scale`
to the nearest integer) and append the unit.  The empty-string fallback is
unreachable: the `"f"` entry always returns (the Python fallback is
`str(round(value, 2))`). -/
def format_with_units (v : ℚ) : String :=
  match pickUnitGo v siScales with
  | some (u, scale) => String.mk (intDotChars (round (100 * (v / scale)))) ++ u
  | none => ""

/-! ## DataFrame model

A cell value, a row (partial map from column name to cell) and a frame
(ordered column list plus row list). -/

/-- A cell of the DataFrame: number, string or boolean. -/
inductive Val where
  | num : ℚ → Val
  | str : String → Val
  | bool : Bool → Val
deriving DecidableEq

/-- A row: column name to cell, `none` for a column the row does not carry. -/
def Row : Type := String → Option Val

/-- Numeric cell lookup (a pandas numeric column access). -/
def getNum (r : Row) (c : String) : Option ℚ :=
  match r c with
  | some (Val.num q) => some q
  | _ => none

/-- Boolean cell lookup. -/
def getBool (r : Row) (c : String) : Option Bool :=
  match r c with
  | some (Val.bool b) => some b
  | _ => none

/-- Set one cell of a row. -/
def setValRow (r : Row) (c : String) (v : Val) : Row :=
  fun d => if d = c then some v else r d

/-- A DataFrame: its ordered column names and its rows. -/
structure DataFrame where
  cols : List String
  rows : List Row

/-- Column list after an assignment `df[c] = ...` (pandas appends a new
column at the end, keeps the position of an existing one). -/
def addColName (cols : List String) (c : String) : List String :=
  if c ∈ cols then cols else cols ++ [c]

/-- Model of `pd.concat([a, b], ignore_index=True)`: rows appended, columns the
order-preserving union. -/
def concatDF (a b : DataFrame) : DataFrame :=
  ⟨a.cols ++ b.cols.filter (fun c => !a.cols.contains c), a.rows ++ b.rows⟩

/-- Model of `pd.DataFrame(columns=cols)`: no rows, the given columns. -/
def emptyDF (cols : List String) : DataFrame := ⟨cols, []⟩

/-- Whole-column assignment of one constant (`df[c] = value`). -/
def setColConst (df : DataFrame) (c : String) (v : Val) : DataFrame :=
  ⟨addColName df.cols c, df.rows.map (fun r => setValRow r c v)⟩

/-- Row-wise traversal that fails when any row fails (a pandas column
operation raising, e.g. on a missing column). -/
def mapRowsM (f : Row → Option Row) : List Row → Option (List Row)
  | [] => some []
  | r :: rest =>
    match f r, mapRowsM f rest with
    | some r2, some rest2 => some (r2 :: rest2)
    | _, _ => none

/-- Column assignment computed row-wise from the frame's own rows
(`df[c] = <expression in df's columns>`). -/
def assignCol (df : DataFrame) (c : String) (f : Row → Option Val) :
    Option DataFrame :=
  match mapRowsM (fun r => (f r).map (setValRow r c)) df.rows with
  | some rs => some ⟨addColName df.cols c, rs⟩
  | none => none

/-! ## `DF_OPS.add_specs_df` (DF_OPS.py lines 49–58) -/

/-- The list `self.specs` of `DF_OPS.__init__`. -/
def specs : List String := ["intrinsic_gain", "ft", "area", "gmoverid"]

/-- The exact value of the IEEE-754 double `math.pi`. -/
def mathPi : ℚ := 884279719003555 / 281474976710656

/-- One iteration of the `for spec in self.specs` loop of `add_specs_df`:
the `if/elif` chain adds the matching derived column; a spec with no branch
(`'area'`) changes nothing. -/
def addSpecCol (df : DataFrame) (spec : String) : Option DataFrame :=
  if spec = "intrinsic_gain" then
    assignCol df "intrinsic_gain" (fun r => do
      let g ← getNum r "gm"
      let ro ← getNum r "rout"
      some (Val.num (g * ro)))
  else if spec = "ft" then
    assignCol df "ft" (fun r => do
      let g ← getNum r "gm"
      let cg ← getNum r "cgg"
      some (Val.num (g / (2 * mathPi * cg))))
  else if spec = "gmoverid" then
    assignCol df "gmoverid" (fun r => do
      let g ← getNum r "gm"
      let i ← getNum r "id"
      some (Val.num (g / i)))
  else some df

/-- The `for spec in self.specs` loop. -/
def addSpecsGo (df : DataFrame) : List String → Option DataFrame
  | [] => some df
  | s :: rest =>
    match addSpecCol df s with
    | some df2 => addSpecsGo df2 rest
    | none => none

/-- Source `DF_OPS.add_specs_df(self)`: copy of the table extended with the derived
specification columns. -/
def add_specs_df (df : DataFrame) : Option DataFrame := addSpecsGo df specs

/-! ## `DF_OPS.compute_conditional_df` (DF_OPS.py lines 60–102) -/

/-- The list `self.proportional`. -/
def proportional : List String := ["cgg", "gm", "gmb", "id"]

/-- The list `self.inversly` (spelling of the source). -/
def inversly : List String := ["rout"]

/-- Membership in `self.proportional + self.inversly`. -/
def isResizable (v : String) : Bool := (proportional ++ inversly).contains v

/-- Apply `f` to the numeric cells of the listed columns
(`temp_copy[cols] = temp_copy[cols].multiply(..., axis=0)` restricted to one
row — index alignment pairs each row with its own factor). -/
def scaleList (f : ℚ → ℚ) : List String → Row → Option Row
  | [], r => some r
  | c :: rest, r =>
    match getNum r c with
    | some y => scaleList f rest (setValRow r c (Val.num (f y)))
    | none => none

/-- Lines 80–81 of the source for one row: multiply every `proportional`
column by the factor, divide every `inversly` column by it. -/
def scaleRow (r : Row) (factor : ℚ) : Option Row :=
  match scaleList (fun y => y * factor) proportional r with
  | some r1 => scaleList (fun z => z / factor) inversly r1
  | none => none

/-- Lines 67–81 for one source row `r` of `mod_df` under one resizable
condition with variable `v` and target `t`: set the rescaled width (the
`multiply` against `float(row[2])/mod_df[v]` or `mod_df[v]/float(row[2])`),
tag the row with its condition, apply the two geometry filters (`W < Wmax`,
then `W/L > WoverL_min`), and rescale the proportional and inverse columns by
`W_new / W_original` (`temp_copy['W'] / self.df['W']`, whose index alignment
pairs the row with its own pre-resize width `w`).  Outer `none` is a raised
pandas error; `some none` is a row dropped by a filter. -/
def rowPipeline (v : String) (t wlm wmax : ℚ) (r : Row) : Option (Option Row) :=
  match getNum r "W", getNum r v with
  | some w, some x =>
    let w2 := if v ∈ proportional then w * (t / x) else w * (x / t)
    let r1 := setValRow (setValRow r "W" (Val.num w2)) "condition" (Val.str v)
    match getNum r1 "L" with
    | some l =>
      if w2 < wmax ∧ w2 / l > wlm then
        match scaleRow r1 (w2 / w) with
        | some r2 => some (some r2)
        | none => none
      else some none
    | none => none
  | _, _ => none

/-- All surviving rescaled rows one resizable condition contributes. -/
def buildRows (v : String) (t wlm wmax : ℚ) : List Row → Option (List Row)
  | [] => some []
  | r :: rest =>
    match rowPipeline v t wlm wmax r, buildRows v t wlm wmax rest with
    | some (some r2), some tail => some (r2 :: tail)
    | some none, some tail => some tail
    | _, _ => none

/-- A parsed condition: `(variable, operator, target text)`. -/
abbrev Cond := String × Char × String

/-- The Python exceptions `compute_conditional_df` can raise. -/
inductive Err where
  | parseError
  | formatError
  | insufficientConditions
  | missingColumn
deriving DecidableEq

/-- The `for row in parsed_conditions` loop (lines 65–85): accumulate each
resizable condition's surviving rows into `conditional_df` and raise the
sufficiency flag; non-resizable conditions contribute nothing. -/
def resizeLoop (mod_df : DataFrame) (wlm wmax : ℚ) :
    List Cond → DataFrame → Bool → DataFrame × Bool × Option Err
  | [], acc, flag => (acc, flag, none)
  | c :: rest, acc, flag =>
    if isResizable c.1 then
      match pyFloat c.2.2 with
      | none => (acc, flag, some Err.formatError)
      | some t =>
        match buildRows c.1 t wlm wmax mod_df.rows with
        | none => (acc, flag, some Err.missingColumn)
        | some newRows =>
          resizeLoop mod_df wlm wmax rest
            (concatDF acc ⟨addColName mod_df.cols "condition", newRows⟩) true
    else resizeLoop mod_df wlm wmax rest acc flag

/-- Line 86, `conditional_df['area'] = W * L`, for one row. -/
def rowArea (r : Row) : Option Row := do
  let w ← getNum r "W"
  let l ← getNum r "L"
  some (setValRow r "area" (Val.num (w * l)))

/-- Line 86 for the whole accumulated table. -/
def addArea (df : DataFrame) : Option DataFrame :=
  match mapRowsM rowArea df.rows with
  | some rs => some ⟨addColName df.cols "area", rs⟩
  | none => none

/-- One condition's update of `met_specs` for one row (lines 93–102).  For
`'='` the source evaluates `x <= t + tol` and `x >= t - tol` with
`tol = tolerance_percent / 100 * float(target)`; for `'>'` it evaluates
`x >= t`, for `'<'` `x <= t`; any other operator hits no branch and leaves
the row unchanged. -/
def metStep (p : ℚ) (c : Cond) (r : Row) : Option Row :=
  if c.2.1 = '=' then do
    let t ← pyFloat c.2.2
    let x ← getNum r c.1
    let b ← getBool r "met_specs"
    some (setValRow r "met_specs"
      (Val.bool (b && (decide (x ≤ t + p / 100 * t) && decide (t - p / 100 * t ≤ x)))))
  else if c.2.1 = '>' then do
    let t ← pyFloat c.2.2
    let x ← getNum r c.1
    let b ← getBool r "met_specs"
    some (setValRow r "met_specs" (Val.bool (b && decide (t ≤ x))))
  else if c.2.1 = '<' then do
    let t ← pyFloat c.2.2
    let x ← getNum r c.1
    let b ← getBool r "met_specs"
    some (setValRow r "met_specs" (Val.bool (b && decide (x ≤ t))))
  else some r

/-- The `for condition in parsed_conditions` matcher loop applied to one row.
The source iterates conditions on the outside over whole columns; since each
step reads only its own variable's (never rewritten) column and the
`met_specs` cell, processing the conditions per row is the same function. -/
def metRow (p : ℚ) : List Cond → Row → Option Row
  | [], r => some r
  | c :: rest, r =>
    match metStep p c r with
    | some r2 => metRow p rest r2
    | none => none

/-- The body of `compute_conditional_df` after parsing (lines 63–102),
returning the final `conditional_df` and the raised exception, if any:
build the per-condition rescaled tables, add `area` (this happens before the
sufficiency check), raise `insufficientConditions` when no condition was
resizable, otherwise initialise `met_specs = True` and run the matcher. -/
def engineCore (mod_df : DataFrame) (parsed : List Cond) (p wlm wmax : ℚ) :
    DataFrame × Option Err :=
  match resizeLoop mod_df wlm wmax parsed (emptyDF mod_df.cols) false with
  | (acc, _, some e) => (acc, some e)
  | (acc, flag, none) =>
    match addArea acc with
    | none => (acc, some Err.missingColumn)
    | some df2 =>
      if flag = false then (df2, some Err.insufficientConditions)
      else
        let df3 := setColConst df2 "met_specs" (Val.bool true)
        match mapRowsM (metRow p parsed) df3.rows with
        | none => (df3, some Err.missingColumn)
        | some rs => (⟨df3.cols, rs⟩, none)

/-- The object state of a `DF_OPS` instance: `self.df` (width-decoded raw
table), `self.mod_df` (extended table) and `self.conditional_df` (`none`
models the initial integer `0` placeholder). -/
structure DFState where
  df : DataFrame
  mod_df : DataFrame
  conditional_df : Option DataFrame

/-- The `[parse_condition(cond) for cond in conditions]` comprehension:
fails at the first unparseable string. -/
def parseAll : List String → Option (List Cond)
  | [] => some []
  | c :: rest =>
    match parse_condition c, parseAll rest with
    | some pc, some prest => some (pc :: prest)
    | _, _ => none

/-- Source `DF_OPS.compute_conditional_df(self, conditions, ...)`: parse every
condition (a parse failure raises before `self.conditional_df` is touched),
then run the engine body, which rebinds `self.conditional_df` and never
touches `self.df` or `self.mod_df`. -/
def compute_conditional_df (s : DFState) (conditions : List String)
    (p wlm wmax : ℚ) : DFState × Option Err :=
  match parseAll conditions with
  | none => (s, some Err.parseError)
  | some parsed =>
    ({ s with conditional_df := some (engineCore s.mod_df parsed p wlm wmax).1 },
     (engineCore s.mod_df parsed p wlm wmax).2)

/-- The acceptance predicate of one condition on one row, as §4.5 of the
specification words it: for `'='` the band
`target * (1 - p/100) ≤ x ≤ target * (1 + p/100)`, for `'>'`/`'<'` the
inclusive comparison. -/
def specHolds (p : ℚ) (r : Row) (c : Cond) : Prop :=
  ∃ x t, getNum r c.1 = some x ∧ pyFloat c.2.2 = some t ∧
    (if c.2.1 = '=' then t * (1 - p / 100) ≤ x ∧ x ≤ t * (1 + p / 100)
     else if c.2.1 = '>' then t ≤ x
     else if c.2.1 = '<' then x ≤ t
     else True)

/-! ## Concrete example rows, frames and states used in the witnesses -/

/-- Example state: a `DF_OPS` object over an extended table with no rows. -/
def exState : DFState := ⟨⟨["W", "L"], []⟩, ⟨["W", "L", "gm"], []⟩, none⟩

/-- Example state carrying the non-empty result of a previous successful
invocation in `conditional_df`. -/
def exStatePrev : DFState :=
  ⟨⟨["W", "L"], []⟩, ⟨["W", "L", "gm"], []⟩,
    some ⟨["W", "L", "gm", "condition", "area", "met_specs"],
      [fun _ => some (Val.num 1)]⟩⟩

/-- Association-list row constructor for concrete examples. -/
def mkRow (l : List (String × Val)) : Row :=
  fun c => (l.find? (fun q => q.1 == c)).map Prod.snd

/-- Example operating-point row: `gm = 1e-3`, `W = 1e-3` (an oversized
device once rescaled), `L = 1e-7`. -/
def exRowBig : Row :=
  mkRow [("W", Val.num (1 / 1000)), ("L", Val.num (1 / 10000000)),
    ("gm", Val.num (1 / 1000)), ("cgg", Val.num (1 / 10 ^ 12)),
    ("gmb", Val.num (1 / 10000)), ("id", Val.num (1 / 5000)),
    ("rout", Val.num 50000)]

/-- The §8 example row: `gm = 1e-3`, `W = 1e-6`, `L = 1e-7`, with
`cgg = 1e-12`, `gmb = 1e-4`, `id = 2e-4`, `rout = 5e4`. -/
def exRowC1 : Row :=
  mkRow [("W", Val.num (1 / 1000000)), ("L", Val.num (1 / 10000000)),
    ("gm", Val.num (1 / 1000)), ("cgg", Val.num (1 / 10 ^ 12)),
    ("gmb", Val.num (1 / 10000)), ("id", Val.num (1 / 5000)),
    ("rout", Val.num 50000)]

/-- Row of the combined table with `rout = 40000` (inside the 1% band). -/
def exRowIn : Row :=
  mkRow [("W", Val.num (1 / 500000)), ("L", Val.num (1 / 10000000)),
    ("rout", Val.num 40000)]

/-- Row of the combined table with `rout = 39599` (just outside the band). -/
def exRowOut : Row :=
  mkRow [("W", Val.num (1 / 500000)), ("L", Val.num (1 / 10000000)),
    ("rout", Val.num 39599)]

/-- Example base table: one simulated row (`gm = 1e-3`, `id = 2e-4`, …). -/
def exDF8 : DataFrame := ⟨["W", "L", "gm", "rout", "cgg", "id"], [exRowC1]⟩

/-- The spec-side failure test: after an optional sign, the text begins with
a digit, or with a dot followed by a digit — exactly when the regex
`[-+]?\d*\.?\d+` can match a prefix. -/
def goodNumStart (cs : List Char) : Bool :=
  match (signSplit cs).2 with
  | [] => false
  | c :: rest =>
    isDigitChar c ||
      (decide (c = '.') &&
        (match rest with
         | d :: _ => isDigitChar d
         | [] => false))

/-- The spec-side condition-string shape: `cs` decomposes as a non-empty
whitespace-free token, optional whitespace, one of the three operators,
optional whitespace, a non-empty whitespace-free token, and arbitrary
trailing text. -/
def condShape (cs l : List Char) (c : Char) (r w1 w2 tail : List Char) : Prop :=
  l ≠ [] ∧ (∀ a ∈ l, isWsChar a = false) ∧ isOpChar c = true ∧
    r ≠ [] ∧ (∀ a ∈ r, isWsChar a = false) ∧
    (∀ a ∈ w1, isWsChar a = true) ∧ (∀ a ∈ w2, isWsChar a = true) ∧
    cs = l ++ w1 ++ c :: (w2 ++ r ++ tail)

/-! # Theorems -/

/-! ## Row and frame helper lemmas -/

theorem setValRow_self (r : Row) (c : String) (v : Val) :
    setValRow r c v c = some v := by
  simp [setValRow]

theorem setValRow_ne (r : Row) (c : String) (v : Val) (d : String)
    (h : d ≠ c) : setValRow r c v d = r d := by
  simp [setValRow, h]

theorem setValRow_collapse (r : Row) (c : String) (v w : Val) :
    setValRow (setValRow r c v) c w = setValRow r c w := by
  funext d
  by_cases h : d = c <;> simp [setValRow, h]

theorem getNum_setValRow_ne (r : Row) (c : String) (v : Val) (d : String)
    (h : d ≠ c) : getNum (setValRow r c v) d = getNum r d := by
  simp [getNum, setValRow_ne r c v d h]

theorem getNum_setValRow_num (r : Row) (c : String) (q : ℚ) :
    getNum (setValRow r c (Val.num q)) c = some q := by
  simp [getNum, setValRow_self]

theorem getBool_setValRow_bool (r : Row) (c : String) (b : Bool) :
    getBool (setValRow r c (Val.bool b)) c = some b := by
  simp [getBool, setValRow_self]

theorem takeWhile_append_all (p : Char → Bool) :
    ∀ (l r : List Char), (∀ a ∈ l, p a = true) →
      (l ++ r).takeWhile p = l ++ r.takeWhile p := by
  intro l
  induction l with
  | nil => simp
  | cons c l' ih =>
    intro r h
    rw [List.cons_append, List.takeWhile_cons,
      if_pos (h c (List.mem_cons_self c l')), ih r (fun a ha => h a (List.mem_cons_of_mem c ha))]
    rfl

theorem dropWhile_append_all (p : Char → Bool) :
    ∀ (l r : List Char), (∀ a ∈ l, p a = true) →
      (l ++ r).dropWhile p = r.dropWhile p := by
  intro l
  induction l with
  | nil => simp
  | cons c l' ih =>
    intro r h
    rw [List.cons_append, List.dropWhile_cons,
      if_pos (h c (List.mem_cons_self c l'))]
    exact ih r (fun a ha => h a (List.mem_cons_of_mem c ha))

/-- The resize loop skips every non-resizable condition: accumulator, flag
and error are untouched. -/
theorem resizeLoop_no_resizable (mod_df : DataFrame) (wlm wmax : ℚ) :
    ∀ (cs : List Cond) (acc : DataFrame) (flag : Bool),
      (∀ c ∈ cs, isResizable c.1 = false) →
      resizeLoop mod_df wlm wmax cs acc flag = (acc, flag, none) := by
  intro cs
  induction cs with
  | nil => intro acc flag _; rfl
  | cons c rest ih =>
    intro acc flag h
    have hc : isResizable c.1 = false := h c (List.mem_cons_self c rest)
    have hrest : ∀ d ∈ rest, isResizable d.1 = false :=
      fun d hd => h d (List.mem_cons_of_mem c hd)
    simp [resizeLoop, hc, ih acc flag hrest]

/-- All branches of one invocation leave `df` and `mod_df` alone. -/
theorem compute_fields (s : DFState) (conds : List String) (p wlm wmax : ℚ) :
    (compute_conditional_df s conds p wlm wmax).1.df = s.df ∧
      (compute_conditional_df s conds p wlm wmax).1.mod_df = s.mod_df := by
  unfold compute_conditional_df
  cases parseAll conds <;> simp

/-- Shared shape of the failing `insufficientConditions` run: with every
condition parsed and none resizable, the engine rebuilds `conditional_df` as
the empty frame with an added `area` column and raises. -/
theorem engineCore_insufficient (mod_df : DataFrame) (parsed : List Cond)
    (p wlm wmax : ℚ) (hnr : ∀ c ∈ parsed, isResizable c.1 = false) :
    engineCore mod_df parsed p wlm wmax =
      (⟨addColName mod_df.cols "area", []⟩, some Err.insufficientConditions) := by
  unfold engineCore
  rw [resizeLoop_no_resizable mod_df wlm wmax parsed (emptyDF mod_df.cols) false hnr]
  simp [addArea, mapRowsM, emptyDF]

/-- C4: with every condition parseable and none of their variables in the
proportional or inverse sets — the empty list and filter-only lists included —
`compute_conditional_df` raises `InsufficientConditionsError`
(`Exception("The conditions are not sufficient")`) instead of returning a
table. -/
theorem C4_insufficient_conditions (s : DFState) (conds : List String)
    (p wlm wmax : ℚ) (parsed : List Cond)
    (hp : parseAll conds = some parsed)
    (hnr : ∀ c ∈ parsed, isResizable c.1 = false) :
    (compute_conditional_df s conds p wlm wmax).2 =
      some Err.insufficientConditions := by
  unfold compute_conditional_df
  rw [hp]
  simp [engineCore_insufficient s.mod_df parsed p wlm wmax hnr]

/-- C4 witness: the filter-only list `["region=2"]` raises
`InsufficientConditionsError`. -/
theorem C4_witness :
    (compute_conditional_df exState ["region=2"] 1 (1 / 2) (1 / 10000)).2 =
      some Err.insufficientConditions :=
  C4_insufficient_conditions exState ["region=2"] 1 (1 / 2) (1 / 10000)
    [("region", '=', "2")] (by decide) (by decide)

/-- C10: when the engine fails for lack of a resizable condition, the stored
result table has already been replaced: the returned state's
`conditional_df` is the freshly built empty table whose columns are
`mod_df`'s plus the added `area` column, whatever result a previous
invocation had left there. -/
theorem C10_failure_replaces_conditional_df (s : DFState)
    (conds : List String) (p wlm wmax : ℚ) (parsed : List Cond)
    (hp : parseAll conds = some parsed)
    (hnr : ∀ c ∈ parsed, isResizable c.1 = false) :
    (compute_conditional_df s conds p wlm wmax).1.conditional_df =
        some ⟨addColName s.mod_df.cols "area", []⟩ ∧
      (compute_conditional_df s conds p wlm wmax).2 =
        some Err.insufficientConditions := by
  unfold compute_conditional_df
  rw [hp]
  simp [engineCore_insufficient s.mod_df parsed p wlm wmax hnr]

/-- C10 witness: an empty condition list destroys the stored previous result,
leaving the empty frame with columns `["W", "L", "gm", "area"]`. -/
theorem C10_witness :
    (compute_conditional_df exStatePrev [] 1 (1 / 2) (1 / 10000)).1.conditional_df =
        some ⟨addColName exStatePrev.mod_df.cols "area", []⟩ ∧
      (compute_conditional_df exStatePrev [] 1 (1 / 2) (1 / 10000)).2 =
        some Err.insufficientConditions :=
  C10_failure_replaces_conditional_df exStatePrev [] 1 (1 / 2) (1 / 10000)
    [] (by decide) (by decide)

/-- C9: one invocation of `compute_conditional_df` — error or success — leaves
the construction-time tables `df` and `mod_df` of the object unchanged, and a
second invocation on the resulting object still sees the same `mod_df`. -/
theorem C9_base_tables_preserved (s : DFState) (conds : List String)
    (p wlm wmax : ℚ) (conds2 : List String) (p2 wlm2 wmax2 : ℚ) :
    (compute_conditional_df s conds p wlm wmax).1.df = s.df ∧
      (compute_conditional_df s conds p wlm wmax).1.mod_df = s.mod_df ∧
      (compute_conditional_df (compute_conditional_df s conds p wlm wmax).1
          conds2 p2 wlm2 wmax2).1.mod_df = s.mod_df := by
  refine ⟨(compute_fields s conds p wlm wmax).1,
    (compute_fields s conds p wlm wmax).2, ?_⟩
  rw [(compute_fields (compute_conditional_df s conds p wlm wmax).1
    conds2 p2 wlm2 wmax2).2]
  exact (compute_fields s conds p wlm wmax).2

/-! ## C3: the geometry constraint filters -/

/-- C3: a source row whose rescaled width `w2` violates a geometry bound —
`w2 >= widthMax`, or after that filter `w2 / L <= widthOverLengthMin` — is
dropped from the condition's contribution entirely (`some none`, no tagged
failing row), so it never reaches the combined table. -/
theorem C3_geometry_filter_drops (r : Row) (v : String) (t wlm wmax w x l w2 : ℚ)
    (hw : getNum r "W" = some w) (hx : getNum r v = some x)
    (hl : getNum r "L" = some l)
    (_hres : v ∈ proportional ∨ v ∈ inversly)
    (hw2 : w2 = if v ∈ proportional then w * (t / x) else w * (x / t))
    (hdrop : wmax ≤ w2 ∨ w2 / l ≤ wlm) :
    rowPipeline v t wlm wmax r = some none ∧
      buildRows v t wlm wmax [r] = some [] := by
  have hL1 : getNum (setValRow (setValRow r "W" (Val.num w2))
      "condition" (Val.str v)) "L" = some l := by
    rw [getNum_setValRow_ne _ _ _ _ (by decide : "L" ≠ "condition"),
      getNum_setValRow_ne _ _ _ _ (by decide : "L" ≠ "W")]
    exact hl
  have hnot : ¬(w2 < wmax ∧ w2 / l > wlm) := by
    rcases hdrop with h | h
    · exact fun hc => absurd hc.1 (not_lt.mpr h)
    · exact fun hc => absurd hc.2 (not_lt.mpr h)
  have h1 : rowPipeline v t wlm wmax r = some none := by
    simp only [rowPipeline, hw, hx, ← hw2, hL1]
    rw [if_neg hnot]
  exact ⟨h1, by simp [buildRows, h1]⟩

/-- C3 witness: under `gm = 2e-3` the example row's rescaled width `2e-3`
reaches `widthMax = 100e-6`, so the row is dropped outright. -/
theorem C3_witness :
    rowPipeline "gm" (1 / 500) (1 / 2) (1 / 10000) exRowBig = some none ∧
      buildRows "gm" (1 / 500) (1 / 2) (1 / 10000) [exRowBig] = some [] :=
  C3_geometry_filter_drops exRowBig "gm" (1 / 500) (1 / 2) (1 / 10000)
    (1 / 1000) (1 / 1000) (1 / 10000000) (1 / 500)
    rfl rfl rfl (Or.inl (by decide))
    (by rw [if_pos (by decide : "gm" ∈ proportional)]; norm_num)
    (Or.inl (by norm_num))

/-! ## C1: the per-row resize and rescale algebra -/

theorem getNum_congr (r r2 : Row) (c : String) (h : r2 c = r c) :
    getNum r2 c = getNum r c := by
  simp [getNum, h]

/-- The helper `scaleList` applies `f` to each listed (pairwise distinct) column and
leaves every other column alone. -/
theorem scaleList_spec (f : ℚ → ℚ) :
    ∀ (cs : List String) (r : Row), cs.Nodup →
      (∀ c ∈ cs, ∃ y, getNum r c = some y) →
      ∃ r2, scaleList f cs r = some r2 ∧
        (∀ c ∈ cs, ∀ y, getNum r c = some y → r2 c = some (Val.num (f y))) ∧
        (∀ d, d ∉ cs → r2 d = r d) := by
  intro cs
  induction cs with
  | nil =>
    intro r _ _
    exact ⟨r, rfl, by simp, fun d _ => rfl⟩
  | cons c rest ih =>
    intro r hnd hlook
    obtain ⟨y, hy⟩ := hlook c (List.mem_cons_self c rest)
    have hcnot : c ∉ rest := (List.nodup_cons.mp hnd).1
    have hnd2 : rest.Nodup := (List.nodup_cons.mp hnd).2
    have hlook1 : ∀ d ∈ rest, ∃ z, getNum (setValRow r c (Val.num (f y))) d = some z := by
      intro d hd
      obtain ⟨z, hz⟩ := hlook d (List.mem_cons_of_mem c hd)
      refine ⟨z, ?_⟩
      rw [getNum_setValRow_ne r c _ d (fun e => hcnot (e ▸ hd))]
      exact hz
    obtain ⟨r2, hr2, hset, hpres⟩ := ih (setValRow r c (Val.num (f y))) hnd2 hlook1
    refine ⟨r2, by simp [scaleList, hy, hr2], ?_, ?_⟩
    · intro d hd z hz
      rcases List.mem_cons.mp hd with rfl | hd2
      · have hzy : z = y := by
          rw [hy] at hz
          exact (Option.some.inj hz).symm
        subst hzy
        rw [hpres d hcnot]
        exact setValRow_self r d (Val.num (f z))
      · have hne : d ≠ c := fun e => hcnot (e ▸ hd2)
        refine hset d hd2 z ?_
        rw [getNum_setValRow_ne r c _ d hne]
        exact hz
    · intro d hd
      have hd1 : d ∉ rest := fun h => hd (List.mem_cons_of_mem c h)
      have hdc : d ≠ c := fun e => hd (e ▸ List.mem_cons_self c rest)
      rw [hpres d hd1, setValRow_ne r c _ d hdc]

/-- Lines 80–81 for one row: proportional columns multiplied by the factor,
inverse columns divided by it, every other column untouched. -/
theorem scaleRow_spec (r : Row) (factor : ℚ)
    (hp : ∀ c ∈ proportional, ∃ y, getNum r c = some y)
    (hi : ∀ c ∈ inversly, ∃ z, getNum r c = some z) :
    ∃ r2, scaleRow r factor = some r2 ∧
      (∀ c ∈ proportional, ∀ y, getNum r c = some y →
        r2 c = some (Val.num (y * factor))) ∧
      (∀ c ∈ inversly, ∀ z, getNum r c = some z →
        r2 c = some (Val.num (z / factor))) ∧
      (∀ d, d ∉ proportional → d ∉ inversly → r2 d = r d) := by
  have hPI : ∀ c ∈ inversly, c ∉ proportional := by decide
  have hIP : ∀ c ∈ proportional, c ∉ inversly := by decide
  obtain ⟨r1, hr1, hset1, hpres1⟩ :=
    scaleList_spec (fun y => y * factor) proportional r (by decide) hp
  have hi1 : ∀ c ∈ inversly, ∃ z, getNum r1 c = some z := by
    intro c hc
    obtain ⟨z, hz⟩ := hi c hc
    exact ⟨z, by rw [getNum_congr r r1 c (hpres1 c (hPI c hc))]; exact hz⟩
  obtain ⟨r2, hr2, hset2, hpres2⟩ :=
    scaleList_spec (fun z => z / factor) inversly r1 (by decide) hi1
  refine ⟨r2, by simp [scaleRow, hr1, hr2], ?_, ?_, ?_⟩
  · intro c hc y hy
    rw [hpres2 c (hIP c hc)]
    exact hset1 c hc y hy
  · intro c hc z hz
    refine hset2 c hc z ?_
    rw [getNum_congr r r1 c (hpres1 c (hPI c hc))]
    exact hz
  · intro d hd1 hd2
    rw [hpres2 d hd2, hpres1 d hd1]

/-- C1: for a source row with pre-resize width `w` and driving value `x` in
column `v`, a resizable condition with target `t` produces (when the geometry
filters pass) exactly one rescaled row: its width is `w2 = w * t / x` for a
proportional `v` and `w2 = w * x / t` for the inverse `rout`; every
proportional column is multiplied by `w2 / w` (the pre-resize width of that
same row) and every inverse column divided by it; consequently the rescaled
driving value is exactly `t`; and the later `area` assignment gives the row
`area = w2 * L`. -/
theorem C1_resize_rescale (r : Row) (v : String) (t wlm wmax w x l w2 : ℚ)
    (hw : getNum r "W" = some w) (hx : getNum r v = some x)
    (hl : getNum r "L" = some l)
    (hw0 : w ≠ 0) (hx0 : x ≠ 0)
    (hres : v ∈ proportional ∨ v ∈ inversly)
    (ht0 : v ∈ inversly → t ≠ 0)
    (hp : ∀ c ∈ proportional, ∃ y, getNum r c = some y)
    (hi : ∀ c ∈ inversly, ∃ z, getNum r c = some z)
    (hw2 : w2 = if v ∈ proportional then w * (t / x) else w * (x / t))
    (hkeep : w2 < wmax ∧ w2 / l > wlm) :
    ∃ r2, rowPipeline v t wlm wmax r = some (some r2) ∧
      getNum r2 "W" = some w2 ∧
      r2 "condition" = some (Val.str v) ∧
      (∀ c ∈ proportional, ∀ y, getNum r c = some y →
        getNum r2 c = some (y * (w2 / w))) ∧
      (∀ c ∈ inversly, ∀ z, getNum r c = some z →
        getNum r2 c = some (z / (w2 / w))) ∧
      getNum r2 v = some t ∧
      (∃ r3, rowArea r2 = some r3 ∧ getNum r3 "area" = some (w2 * l)) := by
  have hPnotW : ∀ c ∈ proportional, c ≠ "W" ∧ c ≠ "condition" := by decide
  have hInotW : ∀ c ∈ inversly, c ≠ "W" ∧ c ≠ "condition" := by decide
  have hIP : ∀ c ∈ proportional, c ∉ inversly := by decide
  have hPI : ∀ c ∈ inversly, c ∉ proportional := by decide
  set r1 := setValRow (setValRow r "W" (Val.num w2)) "condition" (Val.str v) with hr1def
  have hr1at : ∀ d, d ≠ "W" → d ≠ "condition" → r1 d = r d := by
    intro d h1 h2
    rw [hr1def, setValRow_ne _ _ _ d h2, setValRow_ne _ _ _ d h1]
  have hL1 : getNum r1 "L" = some l := by
    rw [getNum_congr r r1 "L" (hr1at "L" (by decide) (by decide))]
    exact hl
  have hp1 : ∀ c ∈ proportional, ∃ y, getNum r1 c = some y := by
    intro c hc
    obtain ⟨y, hy⟩ := hp c hc
    refine ⟨y, ?_⟩
    rw [getNum_congr r r1 c (hr1at c (hPnotW c hc).1 (hPnotW c hc).2)]
    exact hy
  have hi1 : ∀ c ∈ inversly, ∃ z, getNum r1 c = some z := by
    intro c hc
    obtain ⟨z, hz⟩ := hi c hc
    refine ⟨z, ?_⟩
    rw [getNum_congr r r1 c (hr1at c (hInotW c hc).1 (hInotW c hc).2)]
    exact hz
  obtain ⟨r2, hr2, hset2p, hset2i, hpres2⟩ := scaleRow_spec r1 (w2 / w) hp1 hi1
  have hget2p : ∀ c ∈ proportional, ∀ y, getNum r c = some y →
      getNum r2 c = some (y * (w2 / w)) := by
    intro c hc y hy
    have : r2 c = some (Val.num (y * (w2 / w))) := by
      refine hset2p c hc y ?_
      rw [getNum_congr r r1 c (hr1at c (hPnotW c hc).1 (hPnotW c hc).2)]
      exact hy
    simp [getNum, this]
  have hget2i : ∀ c ∈ inversly, ∀ z, getNum r c = some z →
      getNum r2 c = some (z / (w2 / w)) := by
    intro c hc z hz
    have : r2 c = some (Val.num (z / (w2 / w))) := by
      refine hset2i c hc z ?_
      rw [getNum_congr r r1 c (hr1at c (hInotW c hc).1 (hInotW c hc).2)]
      exact hz
    simp [getNum, this]
  have hW2 : getNum r2 "W" = some w2 := by
    rw [getNum_congr r1 r2 "W" (hpres2 "W" (by decide) (by decide))]
    rw [hr1def, getNum_setValRow_ne _ _ _ "W" (by decide), getNum_setValRow_num]
  have hC2 : r2 "condition" = some (Val.str v) := by
    rw [hpres2 "condition" (by decide) (by decide), hr1def, setValRow_self]
  have hL2 : getNum r2 "L" = some l := by
    rw [getNum_congr r1 r2 "L" (hpres2 "L" (by decide) (by decide))]
    exact hL1
  have hdrive : getNum r2 v = some t := by
    rcases hres with hvP | hvI
    · have := hget2p v hvP x hx
      rw [this]
      have hval : x * (w2 / w) = t := by
        rw [hw2, if_pos hvP]
        field_simp
        ring
      rw [hval]
    · have := hget2i v hvI x hx
      rw [this]
      have hval : x / (w2 / w) = t := by
        rw [hw2, if_neg (hPI v hvI)]
        field_simp [ht0 hvI]
        ring
      rw [hval]
  refine ⟨r2, ?_, hW2, hC2, hget2p, hget2i, hdrive, ?_⟩
  · simp only [rowPipeline, hw, hx, ← hw2, ← hr1def, hL1]
    rw [if_pos hkeep, hr2]
  · refine ⟨setValRow r2 "area" (Val.num (w2 * l)), ?_, ?_⟩
    · simp [rowArea, hW2, hL2]
    · exact getNum_setValRow_num r2 "area" (w2 * l)

/-- C1 witness: the §8 example — condition `gm = 2e-3` on the row with
`gm = 1e-3`, `W = 1e-6` — yields `W2 = 2e-6`; the rescale multiplies
`cgg`, `gm`, `gmb`, `id` by `W2 / W = 2` and divides `rout` by it, the
rescaled `gm` is exactly `2e-3`, and `area = W2 * L`. -/
theorem C1_witness :
    ∃ r2, rowPipeline "gm" (1 / 500) (1 / 2) (1 / 10000) exRowC1 = some (some r2) ∧
      getNum r2 "W" = some (1 / 500000) ∧
      r2 "condition" = some (Val.str "gm") ∧
      (∀ c ∈ proportional, ∀ y, getNum exRowC1 c = some y →
        getNum r2 c = some (y * (1 / 500000 / (1 / 1000000)))) ∧
      (∀ c ∈ inversly, ∀ z, getNum exRowC1 c = some z →
        getNum r2 c = some (z / (1 / 500000 / (1 / 1000000)))) ∧
      getNum r2 "gm" = some (1 / 500) ∧
      (∃ r3, rowArea r2 = some r3 ∧
        getNum r3 "area" = some (1 / 500000 * (1 / 10000000))) :=
  C1_resize_rescale exRowC1 "gm" (1 / 500) (1 / 2) (1 / 10000)
    (1 / 1000000) (1 / 1000) (1 / 10000000) (1 / 500000)
    rfl rfl rfl (by norm_num) (by norm_num)
    (Or.inl (by decide))
    (fun h => absurd h (by decide))
    (by intro c hc; fin_cases hc <;> exact ⟨_, rfl⟩)
    (by intro c hc; fin_cases hc <;> exact ⟨_, rfl⟩)
    (by rw [if_pos (by decide : "gm" ∈ proportional)]; norm_num)
    (by constructor <;> norm_num)

/-! ## C2: the specification matcher -/

/-- The matcher fold over one row: starting from `met_specs = b`, it
terminates with `met_specs` true exactly when `b` was true and every
condition accepts the row; no other cell is touched. -/
theorem metRow_spec (p : ℚ) :
    ∀ (conds : List Cond) (r : Row) (b : Bool),
      (∀ c ∈ conds, c.1 ≠ "met_specs") →
      (∀ c ∈ conds, isOpChar c.2.1 = true) →
      (∀ c ∈ conds, ∃ x t, getNum r c.1 = some x ∧ pyFloat c.2.2 = some t) →
      ∃ r2, metRow p conds (setValRow r "met_specs" (Val.bool b)) = some r2 ∧
        (∀ d, d ≠ "met_specs" → r2 d = r d) ∧
        (r2 "met_specs" = some (Val.bool true) ↔
          (b = true ∧ ∀ c ∈ conds, specHolds p r c)) := by
  intro conds
  induction conds with
  | nil =>
    intro r b _ _ _
    refine ⟨setValRow r "met_specs" (Val.bool b), rfl, ?_, ?_⟩
    · intro d hd
      exact setValRow_ne r "met_specs" (Val.bool b) d hd
    · rw [setValRow_self]
      cases b <;> simp
  | cons c cs ih =>
    intro r b hmet hops hlook
    obtain ⟨x, t, hx, ht⟩ := hlook c (List.mem_cons_self c cs)
    have hcmet : c.1 ≠ "met_specs" := hmet c (List.mem_cons_self c cs)
    have hop : c.2.1 = '=' ∨ c.2.1 = '<' ∨ c.2.1 = '>' := by
      have h2 := hops c (List.mem_cons_self c cs)
      simp only [isOpChar, Bool.or_eq_true, decide_eq_true_eq] at h2
      tauto
    have hxb : getNum (setValRow r "met_specs" (Val.bool b)) c.1 = some x := by
      rw [getNum_setValRow_ne r "met_specs" (Val.bool b) c.1 hcmet]
      exact hx
    have hbb : getBool (setValRow r "met_specs" (Val.bool b)) "met_specs" = some b :=
      getBool_setValRow_bool r "met_specs" b
    have hspec : specHolds p r c ↔
        (if c.2.1 = '=' then t * (1 - p / 100) ≤ x ∧ x ≤ t * (1 + p / 100)
         else if c.2.1 = '>' then t ≤ x
         else if c.2.1 = '<' then x ≤ t
         else True) := by
      constructor
      · rintro ⟨x2, t2, hx2, ht2, hc2⟩
        rw [hx] at hx2
        rw [ht] at ht2
        obtain rfl := Option.some.inj hx2
        obtain rfl := Option.some.inj ht2
        exact hc2
      · intro h
        exact ⟨x, t, hx, ht, h⟩
    -- the boolean this condition contributes
    rcases hop with hopeq | hoplt | hopgt
    case inl =>
      have hstep : metStep p c (setValRow r "met_specs" (Val.bool b)) =
          some (setValRow r "met_specs"
            (Val.bool (b && (decide (x ≤ t + p / 100 * t) &&
              decide (t - p / 100 * t ≤ x))))) := by
        simp [metStep, hopeq, ht, hxb, hbb, setValRow_collapse]
      obtain ⟨r2, hr2, hpres, hiff⟩ := ih r
        (b && (decide (x ≤ t + p / 100 * t) && decide (t - p / 100 * t ≤ x)))
        (fun d hd => hmet d (List.mem_cons_of_mem c hd))
        (fun d hd => hops d (List.mem_cons_of_mem c hd))
        (fun d hd => hlook d (List.mem_cons_of_mem c hd))
      refine ⟨r2, ?_, hpres, ?_⟩
      · simp only [metRow, hstep]
        exact hr2
      · rw [hiff]
        simp only [List.forall_mem_cons, Bool.and_eq_true, decide_eq_true_eq, hspec,
          hopeq, if_pos rfl]
        constructor
        · rintro ⟨⟨hb, h1, h2⟩, hrest⟩
          exact ⟨hb, ⟨by nlinarith, by nlinarith⟩, hrest⟩
        · rintro ⟨hb, ⟨h1, h2⟩, hrest⟩
          exact ⟨⟨hb, by nlinarith, by nlinarith⟩, hrest⟩
    case inr.inl =>
      have hstep : metStep p c (setValRow r "met_specs" (Val.bool b)) =
          some (setValRow r "met_specs" (Val.bool (b && decide (x ≤ t)))) := by
        simp [metStep, hoplt, ht, hxb, hbb, setValRow_collapse]
      obtain ⟨r2, hr2, hpres, hiff⟩ := ih r (b && decide (x ≤ t))
        (fun d hd => hmet d (List.mem_cons_of_mem c hd))
        (fun d hd => hops d (List.mem_cons_of_mem c hd))
        (fun d hd => hlook d (List.mem_cons_of_mem c hd))
      refine ⟨r2, ?_, hpres, ?_⟩
      · simp only [metRow, hstep]
        exact hr2
      · rw [hiff]
        simp only [List.forall_mem_cons, Bool.and_eq_true, decide_eq_true_eq, hspec,
          hoplt]
        constructor
        · rintro ⟨⟨hb, h1⟩, hrest⟩
          exact ⟨hb, by simpa using h1, hrest⟩
        · rintro ⟨hb, h1, hrest⟩
          exact ⟨⟨hb, by simpa using h1⟩, hrest⟩
    case inr.inr =>
      have hstep : metStep p c (setValRow r "met_specs" (Val.bool b)) =
          some (setValRow r "met_specs" (Val.bool (b && decide (t ≤ x)))) := by
        simp [metStep, hopgt, ht, hxb, hbb, setValRow_collapse]
      obtain ⟨r2, hr2, hpres, hiff⟩ := ih r (b && decide (t ≤ x))
        (fun d hd => hmet d (List.mem_cons_of_mem c hd))
        (fun d hd => hops d (List.mem_cons_of_mem c hd))
        (fun d hd => hlook d (List.mem_cons_of_mem c hd))
      refine ⟨r2, ?_, hpres, ?_⟩
      · simp only [metRow, hstep]
        exact hr2
      · rw [hiff]
        simp only [List.forall_mem_cons, Bool.and_eq_true, decide_eq_true_eq, hspec,
          hopgt]
        constructor
        · rintro ⟨⟨hb, h1⟩, hrest⟩
          exact ⟨hb, by simpa using h1, hrest⟩
        · rintro ⟨hb, h1, hrest⟩
          exact ⟨⟨hb, by simpa using h1⟩, hrest⟩

/-- C2: for a row of the combined rescaled table (its `met_specs` cell freshly
initialised to true, as line 91 does) and any parsed condition list, the
matcher's final `met_specs` flag is true exactly when every condition accepts
the row — `'='` within the inclusive band
`target * (1 - p/100) ≤ value ≤ target * (1 + p/100)`, `'>'` as an inclusive
`≥`, `'<'` as an inclusive `≤`. -/
theorem C2_met_specs_iff (p : ℚ) (conds : List Cond) (r : Row)
    (hmet : ∀ c ∈ conds, c.1 ≠ "met_specs")
    (hops : ∀ c ∈ conds, isOpChar c.2.1 = true)
    (hlook : ∀ c ∈ conds, ∃ x t, getNum r c.1 = some x ∧ pyFloat c.2.2 = some t) :
    ∃ r2, metRow p conds (setValRow r "met_specs" (Val.bool true)) = some r2 ∧
      (r2 "met_specs" = some (Val.bool true) ↔ ∀ c ∈ conds, specHolds p r c) := by
  obtain ⟨r2, h1, _, h3⟩ := metRow_spec p conds r true hmet hops hlook
  refine ⟨r2, h1, ?_⟩
  rw [h3]
  simp

/-- C2 witness: for the condition `rout = 40e3` at `tolerance_percent = 1`,
the matcher's flag on each example row is equivalent to membership in the
band `[40000 * (1 - 1/100), 40000 * (1 + 1/100)] = [39600, 40400]`. -/
theorem C2_witness :
    (∃ r2, metRow 1 [("rout", '=', "40e3")]
        (setValRow exRowIn "met_specs" (Val.bool true)) = some r2 ∧
      (r2 "met_specs" = some (Val.bool true) ↔
        ∀ c ∈ [(("rout", '=', "40e3") : Cond)], specHolds 1 exRowIn c)) ∧
    (∃ r2, metRow 1 [("rout", '=', "40e3")]
        (setValRow exRowOut "met_specs" (Val.bool true)) = some r2 ∧
      (r2 "met_specs" = some (Val.bool true) ↔
        ∀ c ∈ [(("rout", '=', "40e3") : Cond)], specHolds 1 exRowOut c)) := by
  constructor
  · exact C2_met_specs_iff 1 [("rout", '=', "40e3")] exRowIn (by decide) (by decide)
      (by
        intro c hc
        fin_cases hc
        refine ⟨40000, 40000, rfl, ?_⟩
        simp [pyFloat, signSplit, signSplitInt, valBEN, charVal, isDigitChar]
        norm_num)
  · exact C2_met_specs_iff 1 [("rout", '=', "40e3")] exRowOut (by decide) (by decide)
      (by
        intro c hc
        fin_cases hc
        refine ⟨39599, 40000, rfl, ?_⟩
        simp [pyFloat, signSplit, signSplitInt, valBEN, charVal, isDigitChar]
        norm_num)

/-! ## C8: the derived-specification computer -/

/-- A row-wise traversal succeeds when every row succeeds, and relates input
and output rows pointwise. -/
theorem mapRowsM_forall2 (g : Row → Option Row) :
    ∀ rows : List Row, (∀ r ∈ rows, ∃ r2, g r = some r2) →
      ∃ rows2, mapRowsM g rows = some rows2 ∧
        List.Forall₂ (fun r r2 => g r = some r2) rows rows2 := by
  intro rows
  induction rows with
  | nil => exact fun _ => ⟨[], rfl, List.Forall₂.nil⟩
  | cons r rest ih =>
    intro h
    obtain ⟨r2, hr2⟩ := h r (List.mem_cons_self r rest)
    obtain ⟨rest2, hrest2, hF⟩ := ih (fun d hd => h d (List.mem_cons_of_mem r hd))
    exact ⟨r2 :: rest2, by simp [mapRowsM, hr2, hrest2], List.Forall₂.cons hr2 hF⟩

/-- The assignment `assignCol` succeeds when the cell expression is defined on every row, and
each output row is its input row with the one column set. -/
theorem assignCol_spec (df : DataFrame) (c : String) (f : Row → Option Val)
    (h : ∀ r ∈ df.rows, ∃ v, f r = some v) :
    ∃ out, assignCol df c f = some out ∧ out.cols = addColName df.cols c ∧
      List.Forall₂ (fun r r2 => ∃ v, f r = some v ∧ r2 = setValRow r c v)
        df.rows out.rows := by
  have h2 : ∀ r ∈ df.rows, ∃ r2, (f r).map (setValRow r c) = some r2 := by
    intro r hr
    obtain ⟨v, hv⟩ := h r hr
    exact ⟨setValRow r c v, by simp [hv]⟩
  obtain ⟨rows2, hrows2, hF⟩ := mapRowsM_forall2 (fun r => (f r).map (setValRow r c)) df.rows h2
  refine ⟨⟨addColName df.cols c, rows2⟩, by simp [assignCol, hrows2], rfl, ?_⟩
  refine hF.imp ?_
  intro r r2 hr2
  rcases hfv : f r with _ | v
  · rw [hfv] at hr2
    simp at hr2
  · rw [hfv] at hr2
    simp at hr2
    exact ⟨v, rfl, hr2.symm⟩

/-- Composition of two pointwise row relations. -/
theorem forall2_comp {R S : Row → Row → Prop} :
    ∀ {l1 l2 l3 : List Row}, List.Forall₂ R l1 l2 → List.Forall₂ S l2 l3 →
      List.Forall₂ (fun a c => ∃ b, R a b ∧ S b c) l1 l3 := by
  intro l1 l2 l3 h1
  induction h1 generalizing l3 with
  | nil =>
    intro h2
    cases h2
    exact List.Forall₂.nil
  | cons hab h1' ih =>
    intro h2
    cases h2 with
    | cons hbc h2' =>
      exact List.Forall₂.cons ⟨_, hab, hbc⟩ (ih h2')

/-- Right-membership along a pointwise row relation. -/
theorem forall2_mem_right {R : Row → Row → Prop} :
    ∀ {l1 l2 : List Row}, List.Forall₂ R l1 l2 → ∀ b ∈ l2, ∃ a ∈ l1, R a b := by
  intro l1 l2 h
  induction h with
  | nil => simp
  | cons hab h' ih =>
    intro b hb
    rcases List.mem_cons.mp hb with rfl | hb2
    · exact ⟨_, List.mem_cons_self _ _, hab⟩
    · obtain ⟨a, ha, hr⟩ := ih b hb2
      exact ⟨a, List.mem_cons_of_mem _ ha, hr⟩

/-- C8: `add_specs_df` returns the table extended with exactly the three
derived columns `intrinsic_gain = gm * rout`, `ft = gm / (2 * pi * cgg)` and
`gmoverid = gm / id` (the `'area'` spec matches no branch of the loop and
adds nothing), each computed row-wise from the row's own base columns, every
other column unchanged. -/
theorem C8_add_specs (df : DataFrame)
    (hig : "intrinsic_gain" ∉ df.cols) (hft : "ft" ∉ df.cols)
    (hgi : "gmoverid" ∉ df.cols)
    (h : ∀ r ∈ df.rows, ∃ g ro cg i, getNum r "gm" = some g ∧
      getNum r "rout" = some ro ∧ getNum r "cgg" = some cg ∧
      getNum r "id" = some i) :
    ∃ out, add_specs_df df = some out ∧
      out.cols = df.cols ++ ["intrinsic_gain", "ft", "gmoverid"] ∧
      List.Forall₂ (fun r r2 => ∀ g ro cg i, getNum r "gm" = some g →
        getNum r "rout" = some ro → getNum r "cgg" = some cg →
        getNum r "id" = some i →
          r2 "intrinsic_gain" = some (Val.num (g * ro)) ∧
          r2 "ft" = some (Val.num (g / (2 * mathPi * cg))) ∧
          r2 "gmoverid" = some (Val.num (g / i)) ∧
          (∀ d, d ≠ "intrinsic_gain" → d ≠ "ft" → d ≠ "gmoverid" → r2 d = r d))
        df.rows out.rows := by
  obtain ⟨df1, e1, c1, F1⟩ := assignCol_spec df "intrinsic_gain"
    (fun r => do
      let g ← getNum r "gm"
      let ro ← getNum r "rout"
      some (Val.num (g * ro)))
    (by
      intro r hr
      obtain ⟨g, ro, cg, i, hg, hro, _, _⟩ := h r hr
      exact ⟨Val.num (g * ro), by simp [hg, hro]⟩)
  have hrows1 : ∀ r1 ∈ df1.rows, ∃ r, r ∈ df.rows ∧ ∃ v,
      r1 = setValRow r "intrinsic_gain" v := by
    intro r1 hr1
    obtain ⟨r, hr, v, _, hrel⟩ := forall2_mem_right F1 r1 hr1
    exact ⟨r, hr, v, hrel⟩
  obtain ⟨df2, e2, c2, F2⟩ := assignCol_spec df1 "ft"
    (fun r => do
      let g ← getNum r "gm"
      let cg ← getNum r "cgg"
      some (Val.num (g / (2 * mathPi * cg))))
    (by
      intro r1 hr1
      obtain ⟨r, hr, v, hrel⟩ := hrows1 r1 hr1
      obtain ⟨g, ro, cg, i, hg, hro, hcg, hi⟩ := h r hr
      refine ⟨Val.num (g / (2 * mathPi * cg)), ?_⟩
      have hg1 : getNum r1 "gm" = some g := by
        rw [hrel, getNum_setValRow_ne _ _ _ _ (by decide)]
        exact hg
      have hcg1 : getNum r1 "cgg" = some cg := by
        rw [hrel, getNum_setValRow_ne _ _ _ _ (by decide)]
        exact hcg
      simp [hg1, hcg1])
  have hrows2 : ∀ r2 ∈ df2.rows, ∃ r, r ∈ df.rows ∧ ∃ v1 v2,
      r2 = setValRow (setValRow r "intrinsic_gain" v1) "ft" v2 := by
    intro r2 hr2
    obtain ⟨r1, hr1, v2, _, hrel2⟩ := forall2_mem_right F2 r2 hr2
    obtain ⟨r, hr, v1, hrel1⟩ := hrows1 r1 hr1
    exact ⟨r, hr, v1, v2, by rw [hrel2, hrel1]⟩
  have e3 : addSpecCol df2 "area" = some df2 := by
    simp [addSpecCol]
  obtain ⟨df3, e4, c4, F3⟩ := assignCol_spec df2 "gmoverid"
    (fun r => do
      let g ← getNum r "gm"
      let i ← getNum r "id"
      some (Val.num (g / i)))
    (by
      intro r2 hr2
      obtain ⟨r, hr, v1, v2, hrel⟩ := hrows2 r2 hr2
      obtain ⟨g, ro, cg, i, hg, hro, hcg, hi⟩ := h r hr
      refine ⟨Val.num (g / i), ?_⟩
      have hg2 : getNum r2 "gm" = some g := by
        rw [hrel, getNum_setValRow_ne _ _ _ _ (by decide),
          getNum_setValRow_ne _ _ _ _ (by decide)]
        exact hg
      have hi2 : getNum r2 "id" = some i := by
        rw [hrel, getNum_setValRow_ne _ _ _ _ (by decide),
          getNum_setValRow_ne _ _ _ _ (by decide)]
        exact hi
      simp [hg2, hi2])
  have eA1 : addSpecCol df "intrinsic_gain" = some df1 := by
    simpa [addSpecCol] using e1
  have eA2 : addSpecCol df1 "ft" = some df2 := by
    simpa [addSpecCol] using e2
  have eA4 : addSpecCol df2 "gmoverid" = some df3 := by
    simpa [addSpecCol] using e4
  refine ⟨df3, ?_, ?_, ?_⟩
  · simp [add_specs_df, specs, addSpecsGo, eA1, eA2, e3, eA4]
  · have hc1 : df1.cols = df.cols ++ ["intrinsic_gain"] := by
      rw [c1, addColName, if_neg hig]
    have hc2 : df2.cols = df.cols ++ ["intrinsic_gain", "ft"] := by
      rw [c2, hc1, addColName, if_neg (by simp [hft])]
      simp
    rw [c4, hc2, addColName, if_neg (by simp [hgi])]
    simp
  · have F12 := forall2_comp F1 F2
    have F124 := forall2_comp F12 F3
    refine F124.imp ?_
    rintro r r3 ⟨r2, ⟨r1, ⟨v1, hv1, hr1⟩, ⟨v2, hv2, hr2⟩⟩, ⟨v3, hv3, hr3⟩⟩
    intro g ro cg i hg hro hcg hi
    have hv1v : v1 = Val.num (g * ro) := by
      rw [hg, hro] at hv1
      simpa using hv1.symm
    have hg1 : getNum r1 "gm" = some g := by
      rw [hr1, getNum_setValRow_ne _ _ _ _ (by decide)]
      exact hg
    have hcg1 : getNum r1 "cgg" = some cg := by
      rw [hr1, getNum_setValRow_ne _ _ _ _ (by decide)]
      exact hcg
    have hv2v : v2 = Val.num (g / (2 * mathPi * cg)) := by
      rw [hg1, hcg1] at hv2
      simpa using hv2.symm
    have hg2 : getNum r2 "gm" = some g := by
      rw [hr2, getNum_setValRow_ne _ _ _ _ (by decide)]
      exact hg1
    have hi2 : getNum r2 "id" = some i := by
      rw [hr2, hr1, getNum_setValRow_ne _ _ _ _ (by decide),
        getNum_setValRow_ne _ _ _ _ (by decide)]
      exact hi
    have hv3v : v3 = Val.num (g / i) := by
      rw [hg2, hi2] at hv3
      simpa using hv3.symm
    refine ⟨?_, ?_, ?_, ?_⟩
    · rw [hr3, setValRow_ne _ _ _ _ (by decide), hr2,
        setValRow_ne _ _ _ _ (by decide), hr1, setValRow_self, hv1v]
    · rw [hr3, setValRow_ne _ _ _ _ (by decide), hr2, setValRow_self, hv2v]
    · rw [hr3, setValRow_self, hv3v]
    · intro d hd1 hd2 hd3
      rw [hr3, setValRow_ne _ _ _ _ hd3, hr2, setValRow_ne _ _ _ _ hd2,
        hr1, setValRow_ne _ _ _ _ hd1]

/-- C8 witness: on the one-row table with `gm = 1e-3`, `id = 2e-4`, the
extension adds exactly the three derived columns and the row's `gmoverid`
is 5. -/
theorem C8_witness :
    ∃ out, add_specs_df exDF8 = some out ∧
      out.cols = exDF8.cols ++ ["intrinsic_gain", "ft", "gmoverid"] ∧
      ∃ r2, out.rows = [r2] ∧ r2 "gmoverid" = some (Val.num 5) := by
  obtain ⟨out, e, hc, hF⟩ := C8_add_specs exDF8 (by decide) (by decide) (by decide)
    (by
      intro r hr
      have hr2 : r = exRowC1 := by
        simpa [exDF8] using hr
      subst hr2
      exact ⟨1 / 1000, 50000, 1 / 10 ^ 12, 1 / 5000, rfl, rfl, rfl, rfl⟩)
  refine ⟨out, e, hc, ?_⟩
  have hrows : exDF8.rows = [exRowC1] := rfl
  rw [hrows] at hF
  obtain ⟨b, l2, hrel, htail, hout⟩ := List.forall₂_cons_left_iff.mp hF
  have hl2 : l2 = [] := List.forall₂_nil_left_iff.mp htail
  obtain ⟨_, _, hgi, _⟩ :=
    hrel (1 / 1000) 50000 (1 / 10 ^ 12) (1 / 5000) rfl rfl rfl rfl
  refine ⟨b, by rw [hout, hl2], ?_⟩
  rw [hgi]
  norm_num

/-! ## C5: the condition parser -/

theorem mem_take_of_le_takeWhile (p : Char → Bool) :
    ∀ (cs : List Char) (j : ℕ), j ≤ (cs.takeWhile p).length →
      ∀ a ∈ cs.take j, p a = true := by
  intro cs
  induction cs with
  | nil => simp
  | cons c cs' ih =>
    intro j hj a ha
    cases j with
    | zero => simp at ha
    | succ j' =>
      by_cases hp : p c
      · rw [List.take_succ_cons] at ha
        rcases List.mem_cons.mp ha with rfl | ha2
        · exact hp
        · refine ih j' ?_ a ha2
          rw [List.takeWhile_cons, if_pos hp, List.length_cons] at hj
          omega
      · rw [List.takeWhile_cons, if_neg hp] at hj
        simp at hj
  

theorem attemptAt_sound (lhs rest : List Char) (l : List Char) (c : Char)
    (rhs : List Char) (h : attemptAt lhs rest = some (l, c, rhs)) :
    l = lhs ∧ isOpChar c = true ∧ rhs ≠ [] ∧
      (∀ a ∈ rhs, isWsChar a = false) ∧
      ∃ w1 w2 tail, rest = w1 ++ c :: (w2 ++ rhs ++ tail) ∧
        (∀ a ∈ w1, isWsChar a = true) ∧ (∀ a ∈ w2, isWsChar a = true) := by
  rcases hdw : rest.dropWhile isWsChar with _ | ⟨c0, rest2⟩
  · simp only [attemptAt, hdw] at h
    exact Option.noConfusion h
  · simp only [attemptAt, hdw] at h
    by_cases hop : isOpChar c0
    · rw [if_pos hop] at h
      by_cases hrhs : (rest2.dropWhile isWsChar).takeWhile (fun d => !isWsChar d) = []
      · rw [if_pos hrhs] at h
        simp at h
      · rw [if_neg hrhs] at h
        rw [Option.some.injEq, Prod.mk.injEq, Prod.mk.injEq] at h
        obtain ⟨h1, h2, h3⟩ := h
        subst h1
        subst h2
        subst h3
        refine ⟨rfl, hop, hrhs, ?_, ?_⟩
        · intro a ha
          have := List.mem_takeWhile_imp ha
          simpa using this
        · have e1 : rest = rest.takeWhile isWsChar ++ (c0 :: rest2) := by
            conv_lhs => rw [← List.takeWhile_append_dropWhile (p := isWsChar) (l := rest)]
            rw [hdw]
          have e2 : rest2 = rest2.takeWhile isWsChar ++ rest2.dropWhile isWsChar :=
            (List.takeWhile_append_dropWhile isWsChar rest2).symm
          have e3 : rest2.dropWhile isWsChar =
              (rest2.dropWhile isWsChar).takeWhile (fun d => !isWsChar d) ++
                (rest2.dropWhile isWsChar).dropWhile (fun d => !isWsChar d) :=
            (List.takeWhile_append_dropWhile (fun d => !isWsChar d)
              (rest2.dropWhile isWsChar)).symm
          refine ⟨rest.takeWhile isWsChar, rest2.takeWhile isWsChar,
            (rest2.dropWhile isWsChar).dropWhile (fun d => !isWsChar d), ?_, ?_, ?_⟩
          · have hsub : rest2 = rest2.takeWhile isWsChar ++
                ((rest2.dropWhile isWsChar).takeWhile (fun d => !isWsChar d) ++
                  (rest2.dropWhile isWsChar).dropWhile (fun d => !isWsChar d)) := by
              conv_lhs => rw [e2, e3]
            conv_lhs => rw [e1]
            conv_lhs => rw [hsub]
            simp [List.append_assoc]
          · intro a ha
            exact List.mem_takeWhile_imp ha
          · intro a ha
            exact List.mem_takeWhile_imp ha
    · rw [if_neg hop] at h
      simp at h

theorem tryLens_sound (cs : List Char) :
    ∀ (j : ℕ), j ≤ (cs.takeWhile (fun d => !isWsChar d)).length →
      ∀ (l : List Char) (c : Char) (rhs : List Char),
        tryLens cs j = some (l, c, rhs) →
        l ≠ [] ∧ (∀ a ∈ l, isWsChar a = false) ∧ isOpChar c = true ∧
          rhs ≠ [] ∧ (∀ a ∈ rhs, isWsChar a = false) ∧
          ∃ w1 w2 tail, cs = l ++ w1 ++ c :: (w2 ++ rhs ++ tail) ∧
            (∀ a ∈ w1, isWsChar a = true) ∧ (∀ a ∈ w2, isWsChar a = true) := by
  intro j
  induction j with
  | zero =>
    intro _ l c rhs h
    exact Option.noConfusion h
  | succ j' ih =>
    intro hj l c rhs h
    rcases hat : attemptAt (cs.take (j' + 1)) (cs.drop (j' + 1)) with _ | r
    · rw [tryLens, hat] at h
      exact ih (le_trans (Nat.le_succ j') hj) l c rhs h
    · rw [tryLens, hat] at h
      obtain rfl : r = (l, c, rhs) := Option.some.inj h
      obtain ⟨hleq, hopc, hrne, hrws, w1, w2, tail, hdec, hw1, hw2⟩ :=
        attemptAt_sound (cs.take (j' + 1)) (cs.drop (j' + 1)) l c rhs hat
      have hlen : (cs.takeWhile (fun d => !isWsChar d)).length ≤ cs.length :=
        List.length_le_of_sublist (List.takeWhile_sublist _)
      have hlne : l ≠ [] := by
        rw [hleq]
        intro hnil
        have h0 : (cs.take (j' + 1)).length = 0 := by
          rw [hnil]
          rfl
        rw [List.length_take] at h0
        omega
      refine ⟨hlne, ?_, hopc, hrne, hrws, w1, w2, tail, ?_, hw1, hw2⟩
      · intro a ha
        rw [hleq] at ha
        have := mem_take_of_le_takeWhile (fun d => !isWsChar d) cs (j' + 1) hj a ha
        simpa using this
      · rw [hleq, List.append_assoc, ← hdec, List.take_append_drop]

/-- C5 counterexample: `parse_condition("gm>=1")` does not raise — the greedy
first group backtracks to `"gm>"`, the operator group matches the `'='`, and
the parser returns `("gm>", "=", "1")`. -/
theorem C5_counterexample :
    parse_condition "gm>=1" = some ("gm>", '=', "1") := by
  decide

/-- Completeness of one backtracking attempt: at the split of a shaped
decomposition, the remainder of the pattern matches. -/
theorem attemptAt_complete (l : List Char) (c : Char) (r w1 w2 tail : List Char)
    (hop : isOpChar c = true) (hr : r ≠ [])
    (hrws : ∀ a ∈ r, isWsChar a = false)
    (hw1 : ∀ a ∈ w1, isWsChar a = true) (hw2 : ∀ a ∈ w2, isWsChar a = true) :
    attemptAt l (w1 ++ c :: (w2 ++ r ++ tail)) ≠ none := by
  have hcws : isWsChar c = false := by
    have h2 : c = '=' ∨ c = '<' ∨ c = '>' := by
      simp only [isOpChar, Bool.or_eq_true, decide_eq_true_eq] at hop
      tauto
    rcases h2 with rfl | rfl | rfl <;> decide
  obtain ⟨rh, rt, rfl⟩ : ∃ rh rt, r = rh :: rt := by
    rcases r with _ | ⟨rh, rt⟩
    · exact absurd rfl hr
    · exact ⟨rh, rt, rfl⟩
  have hrh : isWsChar rh = false := hrws rh (List.mem_cons_self rh rt)
  have hdw : (w1 ++ c :: (w2 ++ (rh :: rt) ++ tail)).dropWhile isWsChar =
      c :: (w2 ++ (rh :: rt) ++ tail) := by
    rw [dropWhile_append_all isWsChar w1 _ hw1, List.dropWhile_cons,
      if_neg (by simp [hcws])]
  have hassoc : w2 ++ (rh :: rt) ++ tail = w2 ++ (rh :: (rt ++ tail)) := by
    simp [List.append_assoc]
  have hdw2 : (w2 ++ (rh :: rt) ++ tail).dropWhile isWsChar =
      rh :: (rt ++ tail) := by
    rw [hassoc, dropWhile_append_all isWsChar w2 _ hw2, List.dropWhile_cons,
      if_neg (by simp [hrh])]
  have htw2 : (rh :: (rt ++ tail)).takeWhile (fun d => !isWsChar d) =
      rh :: (rt ++ tail).takeWhile (fun d => !isWsChar d) := by
    rw [List.takeWhile_cons, if_pos (by simp [hrh])]
  simp only [attemptAt, hdw, hop, if_true, hdw2, htw2]
  simp

/-- Completeness of the backtracking loop: once some first-group length at or
below the starting length succeeds, the loop succeeds. -/
theorem tryLens_complete (cs : List Char) (j0 : ℕ) (h0 : 1 ≤ j0)
    (hsucc : attemptAt (cs.take j0) (cs.drop j0) ≠ none) :
    ∀ j, j0 ≤ j → tryLens cs j ≠ none := by
  intro j
  induction j with
  | zero =>
    intro hj
    omega
  | succ k ih =>
    intro hj
    rcases hat : attemptAt (cs.take (k + 1)) (cs.drop (k + 1)) with _ | rr
    · rw [tryLens, hat]
      by_cases hk : k + 1 = j0
      · rw [hk] at hat
        exact absurd hat hsucc
      · exact ih (by omega)
    · rw [tryLens, hat]
      simp

/-- A shaped prefix makes the parser succeed. -/
theorem parse_condition_complete (s : String)
    (hsh : ∃ l c r w1 w2 tail, condShape s.data l c r w1 w2 tail) :
    parse_condition s ≠ none := by
  obtain ⟨l, c, r, w1, w2, tail, hl, hlws, hop, hr, hrws, hw1, hw2, hcs⟩ := hsh
  have hcs2 : s.data = l ++ (w1 ++ c :: (w2 ++ r ++ tail)) := by
    rw [hcs]
    simp [List.append_assoc]
  have htake : s.data.take l.length = l := by
    rw [hcs2, List.take_left]
  have hdrop : s.data.drop l.length = w1 ++ c :: (w2 ++ r ++ tail) := by
    rw [hcs2, List.drop_left]
  have h1 : 1 ≤ l.length := by
    rcases l with _ | ⟨a, l2⟩
    · exact absurd rfl hl
    · simp
  have hat : attemptAt (s.data.take l.length) (s.data.drop l.length) ≠ none := by
    rw [htake, hdrop]
    exact attemptAt_complete l c r w1 w2 tail hop hr hrws hw1 hw2
  have hlen : l.length ≤ (s.data.takeWhile (fun d => !isWsChar d)).length := by
    rw [hcs2, takeWhile_append_all (fun d => !isWsChar d) l _
      (fun a ha => by simp [hlws a ha])]
    simp
  have hm : matchCond s.data ≠ none :=
    tryLens_complete s.data l.length h1 hat
      (s.data.takeWhile (fun d => !isWsChar d)).length hlen
  rcases hmc : matchCond s.data with _ | ⟨l0, c0, r0⟩
  · exact absurd hmc hm
  · rw [parse_condition, hmc]
    simp

/-- C5 (amended): the parser raises `ParseError` exactly when no prefix of
the input has the shape `<token><ws>*<op><ws>*<token>` — both tokens
non-empty and whitespace-free, the operator one of `=`, `<`, `>` — and
whenever it returns a triple, the returned groups are exactly such a prefix
decomposition.  Tokens may contain operator characters and trailing text is
ignored, which is why `"gm>=1"` parses instead of raising. -/
theorem C5_amended :
    (∀ s : String, parse_condition s = none ↔
      ¬ ∃ l c r w1 w2 tail, condShape s.data l c r w1 w2 tail) ∧
    (∀ (s lhs : String) (op : Char) (rhs : String),
      parse_condition s = some (lhs, op, rhs) →
        ∃ w1 w2 tail, condShape s.data lhs.data op rhs.data w1 w2 tail) := by
  have hsound : ∀ (s lhs : String) (op : Char) (rhs : String),
      parse_condition s = some (lhs, op, rhs) →
        ∃ w1 w2 tail, condShape s.data lhs.data op rhs.data w1 w2 tail := by
    intro s lhs op rhs h
    rcases hm : matchCond s.data with _ | ⟨l0, c0, r0⟩
    · rw [parse_condition, hm] at h
      exact Option.noConfusion h
    · rw [parse_condition, hm] at h
      rw [Option.some.injEq, Prod.mk.injEq, Prod.mk.injEq] at h
      obtain ⟨h1, h2, h3⟩ := h
      have hl : lhs.data = l0 := by
        rw [← h1]
      have hr : rhs.data = r0 := by
        rw [← h3]
      subst h2
      rw [hl, hr]
      obtain ⟨ha, hb, hc, hd, he, w1, w2, tail, hf, hg, hh⟩ :=
        tryLens_sound s.data
          (s.data.takeWhile (fun d => !isWsChar d)).length (le_refl _) l0 c0 r0 hm
      exact ⟨w1, w2, tail, ha, hb, hc, hd, he, hg, hh, hf⟩
  refine ⟨?_, hsound⟩
  intro s
  constructor
  · intro hnone hsh
    exact parse_condition_complete s hsh hnone
  · intro hnsh
    rcases hp : parse_condition s with _ | ⟨⟨lhs, op, rhs⟩⟩
    · rfl
    · obtain ⟨w1, w2, tail, hshape⟩ := hsound s lhs op rhs hp
      exact absurd ⟨lhs.data, op, rhs.data, w1, w2, tail, hshape⟩ hnsh

/-- C5 witness: the well-formed `"gm>1.44e-3"` parses to
`("gm", ">", "1.44e-3")`, which is a shaped prefix decomposition of it. -/
theorem C5_witness :
    ∃ w1 w2 tail, condShape ("gm>1.44e-3" : String).data
      ("gm" : String).data '>' ("1.44e-3" : String).data w1 w2 tail :=
  C5_amended.2 "gm>1.44e-3" "gm" '>' "1.44e-3" (by decide)

/-! ## C6: the SI decoder's failure condition -/

theorem parseMantissa_none_iff (cs : List Char) :
    parseMantissa cs = none ↔ goodNumStart cs = false := by
  rcases h2 : (signSplit cs).2 with _ | ⟨c, rest⟩
  · simp [parseMantissa, goodNumStart, h2]
  · by_cases hd : isDigitChar c
    · have htw : (c :: rest).takeWhile isDigitChar = c :: rest.takeWhile isDigitChar := by
        rw [List.takeWhile_cons, if_pos hd]
      have hdw : (c :: rest).dropWhile isDigitChar = rest.dropWhile isDigitChar := by
        rw [List.dropWhile_cons, if_pos hd]
      simp only [parseMantissa, goodNumStart, h2, htw, hdw, hd]
      rcases rest.dropWhile isDigitChar with _ | ⟨c2, cs3⟩
      · simp
      · by_cases hc2 : c2 = '.'
        · simp only [hc2, if_pos rfl]
          rcases htw2 : cs3.takeWhile isDigitChar with _ | ⟨d2, d2s⟩ <;> simp [htw2]
        · simp [hc2]
    · have htw : (c :: rest).takeWhile isDigitChar = [] := by
        rw [List.takeWhile_cons, if_neg hd]
      have hdw : (c :: rest).dropWhile isDigitChar = c :: rest := by
        rw [List.dropWhile_cons, if_neg hd]
      simp only [parseMantissa, goodNumStart, h2, htw, hdw, hd]
      by_cases hc : c = '.'
      · simp only [hc, if_pos rfl]
        rcases rest with _ | ⟨d, rest'⟩
        · simp
        · by_cases hdd : isDigitChar d
          · have : (d :: rest').takeWhile isDigitChar = d :: rest'.takeWhile isDigitChar := by
              rw [List.takeWhile_cons, if_pos hdd]
            simp [this, hdd]
          · have : (d :: rest').takeWhile isDigitChar = [] := by
              rw [List.takeWhile_cons, if_neg hdd]
            simp [this, hdd]
      · simp [hc]

theorem parse_from_number_none_iff (s : String) :
    parse_from_number s = none ↔ goodNumStart s.data = false := by
  rw [← parseMantissa_none_iff]
  rcases hm : parseMantissa s.data with _ | ⟨q, rest⟩
  · simp [parse_from_number, hm]
  · simp only [parse_from_number, hm]
    rcases rest with _ | ⟨c, cs⟩
    · simp
    · rcases hs : siSuffix c with _ | sc <;> simp [hs]

/-- C6 counterexample: the trailing `"x"` is neither empty nor a recognised
suffix, yet `parse_from_number("10x")` returns 10 instead of raising — the
anchored `re.match` simply ignores what follows the matched groups. -/
theorem C6_counterexample : parse_from_number "10x" = some 10 := by
  simp [parse_from_number, parseMantissa, signSplit, valBEN, charVal,
    isDigitChar, siSuffix]

/-- C6 (amended): the decoder raises `FormatError` exactly when the text has
no parseable signed decimal numeric prefix (after an optional sign, neither a
leading digit nor a dot followed by a digit); one suffix character is
consumed when recognised and all further trailing text is ignored.
`decode("bad")` raises, `decode("10k") = 10000`, `decode("2.5u") = 2.5e-6`,
and `decode("10x") = 10` rather than raising. -/
theorem C6_amended :
    (∀ s : String, parse_from_number s = none ↔ goodNumStart s.data = false) ∧
      parse_from_number "bad" = none ∧
      parse_from_number "10k" = some 10000 ∧
      parse_from_number "2.5u" = some (1 / 400000) ∧
      parse_from_number "10x" = some 10 := by
  refine ⟨parse_from_number_none_iff, rfl, ?_, ?_, ?_⟩
  · simp [parse_from_number, parseMantissa, signSplit, valBEN, charVal,
      isDigitChar, siSuffix]
    norm_num
  · simp [parse_from_number, parseMantissa, signSplit, valBEN, charVal,
      isDigitChar, siSuffix]
    norm_num
  · simp [parse_from_number, parseMantissa, signSplit, valBEN, charVal,
      isDigitChar, siSuffix]

/-! ## C7: the encode/decode round trip -/

theorem isDigitChar_digitChar (d : ℕ) (h : d < 10) :
    isDigitChar (digitChar d) = true := by
  interval_cases d <;> decide

theorem charVal_digitChar (d : ℕ) (h : d < 10) : charVal (digitChar d) = d := by
  interval_cases d <;> decide

theorem natStrChars_all_digit (k : ℕ) :
    ∀ c ∈ natStrChars k, isDigitChar c = true := by
  intro c hc
  by_cases hk : k = 0
  · rw [natStrChars, if_pos hk] at hc
    rcases List.mem_singleton.mp hc with rfl
    decide
  · rw [natStrChars, if_neg hk] at hc
    obtain ⟨d, hd, rfl⟩ := List.mem_map.mp hc
    exact isDigitChar_digitChar d
      (Nat.digits_lt_base (by norm_num) (List.mem_reverse.mp hd))

theorem natStrChars_ne_nil (k : ℕ) : natStrChars k ≠ [] := by
  by_cases hk : k = 0
  · rw [natStrChars, if_pos hk]
    decide
  · rw [natStrChars, if_neg hk]
    simp [Nat.digits_ne_nil_iff_ne_zero.mpr hk]

theorem valBEN_digits_aux :
    ∀ (ds : List ℕ) (a : ℕ), (∀ d ∈ ds, d < 10) →
      (ds.map digitChar).foldl (fun acc c => 10 * acc + charVal c) a =
        ds.foldl (fun acc d => 10 * acc + d) a := by
  intro ds
  induction ds with
  | nil => simp
  | cons d ds' ih =>
    intro a h
    rw [List.map_cons, List.foldl_cons, List.foldl_cons,
      charVal_digitChar d (h d (List.mem_cons_self d ds'))]
    exact ih _ (fun e he => h e (List.mem_cons_of_mem d he))

theorem foldr_ofDigits (l : List ℕ) :
    l.foldr (fun d a => 10 * a + d) 0 = Nat.ofDigits 10 l := by
  induction l with
  | nil => simp [Nat.ofDigits]
  | cons d l' ih =>
    rw [List.foldr_cons, ih, Nat.ofDigits_cons]
    push_cast
    ring

theorem valBEN_natStrChars (k : ℕ) : valBEN (natStrChars k) = k := by
  by_cases hk : k = 0
  · rw [natStrChars, if_pos hk, hk]
    decide
  · rw [natStrChars, if_neg hk, valBEN,
      valBEN_digits_aux (Nat.digits 10 k).reverse 0
        (fun d hd => Nat.digits_lt_base (by norm_num) (List.mem_reverse.mp hd)),
      List.foldl_reverse, foldr_ofDigits, Nat.ofDigits_digits]

theorem valBEN_twoFracChars (f : ℕ) (h : f < 100) :
    valBEN (twoFracChars f) = f := by
  have h1 : f / 10 < 10 := by omega
  have h2 : f % 10 < 10 := by omega
  rw [twoFracChars, valBEN, List.foldl_cons, List.foldl_cons, List.foldl_nil,
    charVal_digitChar _ h1, charVal_digitChar _ h2]
  omega

theorem parse_intDot (n : ℤ) (rest : List Char)
    (hrest : ∀ c cs, rest = c :: cs → isDigitChar c = false) :
    parseMantissa (intDotChars n ++ rest) = some ((n : ℚ) / 100, rest) := by
  have hip : ∀ c ∈ natStrChars (n.natAbs / 100), isDigitChar c = true :=
    natStrChars_all_digit (n.natAbs / 100)
  have hfr10 : n.natAbs % 100 / 10 < 10 := by omega
  have hfr1 : n.natAbs % 100 % 10 < 10 := by omega
  have htwo : ∀ c ∈ twoFracChars (n.natAbs % 100), isDigitChar c = true := by
    intro c hc
    rw [twoFracChars] at hc
    rcases List.mem_cons.mp hc with rfl | hc2
    · exact isDigitChar_digitChar _ hfr10
    · rcases List.mem_singleton.mp hc2 with rfl
      exact isDigitChar_digitChar _ hfr1
  have hrtw : rest.takeWhile isDigitChar = [] := by
    rcases hr : rest with _ | ⟨c, cs⟩
    · rfl
    · rw [List.takeWhile_cons, if_neg (by simp [hrest c cs hr])]
  have hrdw : rest.dropWhile isDigitChar = rest := by
    rcases hr : rest with _ | ⟨c, cs⟩
    · rfl
    · rw [List.dropWhile_cons, if_neg (by simp [hrest c cs hr])]
    
  have hd1 : (natStrChars (n.natAbs / 100) ++
      '.' :: (twoFracChars (n.natAbs % 100) ++ rest)).takeWhile isDigitChar =
      natStrChars (n.natAbs / 100) := by
    rw [takeWhile_append_all isDigitChar _ _ hip, List.takeWhile_cons,
      if_neg (by decide), List.append_nil]
  have hdw : (natStrChars (n.natAbs / 100) ++
      '.' :: (twoFracChars (n.natAbs % 100) ++ rest)).dropWhile isDigitChar =
      '.' :: (twoFracChars (n.natAbs % 100) ++ rest) := by
    rw [dropWhile_append_all isDigitChar _ _ hip, List.dropWhile_cons,
      if_neg (by decide)]
  have hd2 : (twoFracChars (n.natAbs % 100) ++ rest).takeWhile isDigitChar =
      twoFracChars (n.natAbs % 100) := by
    rw [takeWhile_append_all isDigitChar _ _ htwo, hrtw, List.append_nil]
  have hcs4 : (twoFracChars (n.natAbs % 100) ++ rest).dropWhile isDigitChar =
      rest := by
    rw [dropWhile_append_all isDigitChar _ _ htwo, hrdw]
  have hval : ((valBEN (natStrChars (n.natAbs / 100)) : ℚ) +
      (valBEN (twoFracChars (n.natAbs % 100)) : ℚ) /
        10 ^ (twoFracChars (n.natAbs % 100)).length) = (n.natAbs : ℚ) / 100 := by
    rw [valBEN_natStrChars, valBEN_twoFracChars _ (by omega)]
    have hlen : (twoFracChars (n.natAbs % 100)).length = 2 := rfl
    rw [hlen]
    have hq : ((n.natAbs / 100 : ℕ) : ℚ) * 100 + ((n.natAbs % 100 : ℕ) : ℚ) =
        (n.natAbs : ℚ) := by
      have hsplit : n.natAbs / 100 * 100 + n.natAbs % 100 = n.natAbs := by omega
      exact_mod_cast hsplit
    rw [← hq]
    ring
  by_cases hn : n < 0
  · have hform : intDotChars n ++ rest =
        '-' :: (natStrChars (n.natAbs / 100) ++
          '.' :: (twoFracChars (n.natAbs % 100) ++ rest)) := by
      rw [intDotChars, if_pos hn]
      simp [List.append_assoc]
    have hss : signSplit (intDotChars n ++ rest) =
        (-1, natStrChars (n.natAbs / 100) ++
          '.' :: (twoFracChars (n.natAbs % 100) ++ rest)) := by
      rw [hform]
      simp [signSplit]
    rw [parseMantissa, hss]
    simp only [hd1, hdw, hd2, hcs4, if_true]
    rw [if_neg (show ¬(twoFracChars (n.natAbs % 100) = []) by simp [twoFracChars])]
    rw [hval]
    have hcast : (n.natAbs : ℚ) = -(n : ℚ) := by
      rw [Int.cast_natAbs]
      exact_mod_cast abs_of_neg hn
    rw [hcast]
    simp only [Option.some.injEq, Prod.mk.injEq]
    constructor
    · ring
    · trivial
  · have hnn : 0 ≤ n := not_lt.mp hn
    have hform : intDotChars n ++ rest =
        natStrChars (n.natAbs / 100) ++
          '.' :: (twoFracChars (n.natAbs % 100) ++ rest) := by
      rw [intDotChars, if_neg hn]
      simp [List.append_assoc]
    have hss : signSplit (intDotChars n ++ rest) =
        (1, natStrChars (n.natAbs / 100) ++
          '.' :: (twoFracChars (n.natAbs % 100) ++ rest)) := by
      rw [hform]
      rcases hnsc : natStrChars (n.natAbs / 100) with _ | ⟨c0, t0⟩
      · exact absurd hnsc (natStrChars_ne_nil _)
      · have hc0 : isDigitChar c0 = true := by
          refine natStrChars_all_digit (n.natAbs / 100) c0 ?_
          rw [hnsc]
          exact List.mem_cons_self c0 t0
        have hc0m : ¬(c0 = '-') := by
          intro he
          rw [he] at hc0
          exact absurd hc0 (by decide)
        have hc0p : ¬(c0 = '+') := by
          intro he
          rw [he] at hc0
          exact absurd hc0 (by decide)
        simp [signSplit, hc0m, hc0p]
    rw [parseMantissa, hss]
    simp only [hd1, hdw, hd2, hcs4, if_true]
    rw [if_neg (show ¬(twoFracChars (n.natAbs % 100) = []) by simp [twoFracChars])]
    rw [hval]
    have hcast : (n.natAbs : ℚ) = (n : ℚ) := by
      rw [Int.cast_natAbs]
      exact_mod_cast abs_of_nonneg hnn
    rw [hcast]
    simp only [Option.some.injEq, Prod.mk.injEq]
    constructor
    · ring
    · trivial

theorem parse_from_number_intDot (n : ℤ) (u : String) (sc : ℚ)
    (hu : (u = "" ∧ sc = 1) ∨
      ∃ c, u = String.mk [c] ∧ siSuffix c = some sc ∧ isDigitChar c = false) :
    parse_from_number (String.mk (intDotChars n) ++ u) =
      some ((n : ℚ) / 100 * sc) := by
  have hdata : (String.mk (intDotChars n) ++ u).data = intDotChars n ++ u.data := by
    rw [String.data_append]
  rcases hu with ⟨hu0, hsc1⟩ | ⟨c, huc, hsfx, hcd⟩
  · have hm : parseMantissa (intDotChars n ++ u.data) = some ((n : ℚ) / 100, []) := by
      rw [hu0]
      exact parse_intDot n [] (by intro c cs h; exact absurd h (by simp))
    rw [parse_from_number, hdata]
    simp only [hm, hsc1, mul_one]
  · have hm : parseMantissa (intDotChars n ++ u.data) = some ((n : ℚ) / 100, [c]) := by
      rw [huc]
      refine parse_intDot n [c] ?_
      intro c2 cs h
      rw [List.cons.injEq] at h
      rw [← h.1]
      exact hcd
    rw [parse_from_number, hdata]
    simp only [hm, hsfx]

theorem pickUnitGo_spec (v : ℚ) (hlow : 1 / 10 ^ 15 ≤ |v|) (hhigh : |v| ≤ 10 ^ 12) :
    ∃ u sc, pickUnitGo v siScales = some (u, sc) ∧ 0 < sc ∧ sc ≤ |v| ∧
      |v| ≤ 1000 * sc ∧
      ((u = "" ∧ sc = 1) ∨
        ∃ c, u = String.mk [c] ∧ siSuffix c = some sc ∧ isDigitChar c = false) := by
  rcases le_or_lt ((10 ^ 12 : ℚ)) |v| with h0 | h0
  · refine ⟨"T", 10 ^ 12, ?_, by norm_num, h0, ?_, ?_⟩
    · rw [siScales, pickUnitGo, if_pos (Or.inl h0)]
    · nlinarith
    · exact Or.inr ⟨'T', rfl, rfl, by decide⟩
  have hn0 : ¬((10 ^ 12 : ℚ) ≤ |v| ∨ ("T" : String) = "f") :=
    not_or.mpr ⟨not_le.mpr h0, by decide⟩
  rcases le_or_lt ((10 ^ 9 : ℚ)) |v| with h1 | h1
  · refine ⟨"G", 10 ^ 9, ?_, by norm_num, h1, ?_, ?_⟩
    · rw [siScales, pickUnitGo, if_neg hn0, pickUnitGo, if_pos (Or.inl h1)]
    · have he : (1000 : ℚ) * (10 ^ 9) = 10 ^ 12 := by norm_num
      rw [he]
      exact le_of_lt h0
    · exact Or.inr ⟨'G', rfl, rfl, by decide⟩
  have hn1 : ¬((10 ^ 9 : ℚ) ≤ |v| ∨ ("G" : String) = "f") :=
    not_or.mpr ⟨not_le.mpr h1, by decide⟩
  rcases le_or_lt ((10 ^ 6 : ℚ)) |v| with h2 | h2
  · refine ⟨"M", 10 ^ 6, ?_, by norm_num, h2, ?_, ?_⟩
    · rw [siScales, pickUnitGo, if_neg hn0, pickUnitGo, if_neg hn1, pickUnitGo, if_pos (Or.inl h2)]
    · have he : (1000 : ℚ) * (10 ^ 6) = 10 ^ 9 := by norm_num
      rw [he]
      exact le_of_lt h1
    · exact Or.inr ⟨'M', rfl, rfl, by decide⟩
  have hn2 : ¬((10 ^ 6 : ℚ) ≤ |v| ∨ ("M" : String) = "f") :=
    not_or.mpr ⟨not_le.mpr h2, by decide⟩
  rcases le_or_lt ((10 ^ 3 : ℚ)) |v| with h3 | h3
  · refine ⟨"k", 10 ^ 3, ?_, by norm_num, h3, ?_, ?_⟩
    · rw [siScales, pickUnitGo, if_neg hn0, pickUnitGo, if_neg hn1, pickUnitGo, if_neg hn2, pickUnitGo, if_pos (Or.inl h3)]
    · have he : (1000 : ℚ) * (10 ^ 3) = 10 ^ 6 := by norm_num
      rw [he]
      exact le_of_lt h2
    · exact Or.inr ⟨'k', rfl, rfl, by decide⟩
  have hn3 : ¬((10 ^ 3 : ℚ) ≤ |v| ∨ ("k" : String) = "f") :=
    not_or.mpr ⟨not_le.mpr h3, by decide⟩
  rcases le_or_lt ((1 : ℚ)) |v| with h4 | h4
  · refine ⟨"", 1, ?_, by norm_num, h4, ?_, ?_⟩
    · rw [siScales, pickUnitGo, if_neg hn0, pickUnitGo, if_neg hn1, pickUnitGo, if_neg hn2, pickUnitGo, if_neg hn3, pickUnitGo, if_pos (Or.inl h4)]
    · have he : (1000 : ℚ) * (1) = 10 ^ 3 := by norm_num
      rw [he]
      exact le_of_lt h3
    · exact Or.inl ⟨rfl, rfl⟩
  have hn4 : ¬((1 : ℚ) ≤ |v| ∨ ("" : String) = "f") :=
    not_or.mpr ⟨not_le.mpr h4, by decide⟩
  rcases le_or_lt ((1 / 10 ^ 3 : ℚ)) |v| with h5 | h5
  · refine ⟨"m", 1 / 10 ^ 3, ?_, by norm_num, h5, ?_, ?_⟩
    · rw [siScales, pickUnitGo, if_neg hn0, pickUnitGo, if_neg hn1, pickUnitGo, if_neg hn2, pickUnitGo, if_neg hn3, pickUnitGo, if_neg hn4, pickUnitGo, if_pos (Or.inl h5)]
    · have he : (1000 : ℚ) * (1 / 10 ^ 3) = 1 := by norm_num
      rw [he]
      exact le_of_lt h4
    · exact Or.inr ⟨'m', rfl, rfl, by decide⟩
  have hn5 : ¬((1 / 10 ^ 3 : ℚ) ≤ |v| ∨ ("m" : String) = "f") :=
    not_or.mpr ⟨not_le.mpr h5, by decide⟩
  rcases le_or_lt ((1 / 10 ^ 6 : ℚ)) |v| with h6 | h6
  · refine ⟨"u", 1 / 10 ^ 6, ?_, by norm_num, h6, ?_, ?_⟩
    · rw [siScales, pickUnitGo, if_neg hn0, pickUnitGo, if_neg hn1, pickUnitGo, if_neg hn2, pickUnitGo, if_neg hn3, pickUnitGo, if_neg hn4, pickUnitGo, if_neg hn5, pickUnitGo, if_pos (Or.inl h6)]
    · have he : (1000 : ℚ) * (1 / 10 ^ 6) = 1 / 10 ^ 3 := by norm_num
      rw [he]
      exact le_of_lt h5
    · exact Or.inr ⟨'u', rfl, rfl, by decide⟩
  have hn6 : ¬((1 / 10 ^ 6 : ℚ) ≤ |v| ∨ ("u" : String) = "f") :=
    not_or.mpr ⟨not_le.mpr h6, by decide⟩
  rcases le_or_lt ((1 / 10 ^ 9 : ℚ)) |v| with h7 | h7
  · refine ⟨"n", 1 / 10 ^ 9, ?_, by norm_num, h7, ?_, ?_⟩
    · rw [siScales, pickUnitGo, if_neg hn0, pickUnitGo, if_neg hn1, pickUnitGo, if_neg hn2, pickUnitGo, if_neg hn3, pickUnitGo, if_neg hn4, pickUnitGo, if_neg hn5, pickUnitGo, if_neg hn6, pickUnitGo, if_pos (Or.inl h7)]
    · have he : (1000 : ℚ) * (1 / 10 ^ 9) = 1 / 10 ^ 6 := by norm_num
      rw [he]
      exact le_of_lt h6
    · exact Or.inr ⟨'n', rfl, rfl, by decide⟩
  have hn7 : ¬((1 / 10 ^ 9 : ℚ) ≤ |v| ∨ ("n" : String) = "f") :=
    not_or.mpr ⟨not_le.mpr h7, by decide⟩
  rcases le_or_lt ((1 / 10 ^ 12 : ℚ)) |v| with h8 | h8
  · refine ⟨"p", 1 / 10 ^ 12, ?_, by norm_num, h8, ?_, ?_⟩
    · rw [siScales, pickUnitGo, if_neg hn0, pickUnitGo, if_neg hn1, pickUnitGo, if_neg hn2, pickUnitGo, if_neg hn3, pickUnitGo, if_neg hn4, pickUnitGo, if_neg hn5, pickUnitGo, if_neg hn6, pickUnitGo, if_neg hn7, pickUnitGo, if_pos (Or.inl h8)]
    · have he : (1000 : ℚ) * (1 / 10 ^ 12) = 1 / 10 ^ 9 := by norm_num
      rw [he]
      exact le_of_lt h7
    · exact Or.inr ⟨'p', rfl, rfl, by decide⟩
  have hn8 : ¬((1 / 10 ^ 12 : ℚ) ≤ |v| ∨ ("p" : String) = "f") :=
    not_or.mpr ⟨not_le.mpr h8, by decide⟩
  refine ⟨"f", 1 / 10 ^ 15, ?_, by norm_num, hlow, ?_, ?_⟩
  · rw [siScales, pickUnitGo, if_neg hn0, pickUnitGo, if_neg hn1, pickUnitGo, if_neg hn2, pickUnitGo, if_neg hn3, pickUnitGo, if_neg hn4, pickUnitGo, if_neg hn5, pickUnitGo, if_neg hn6, pickUnitGo, if_neg hn7, pickUnitGo, if_neg hn8, pickUnitGo, if_pos (Or.inr rfl)]
  · have he : (1000 : ℚ) * (1 / 10 ^ 15) = 1 / 10 ^ 12 := by norm_num
    rw [he]
    exact le_of_lt h8
  · exact Or.inr ⟨'f', rfl, rfl, by decide⟩

theorem format_with_units_eq (v : ℚ) (u : String) (scale : ℚ)
    (h : pickUnitGo v siScales = some (u, scale)) :
    format_with_units v =
      String.mk (intDotChars (round (100 * (v / scale)))) ++ u := by
  unfold format_with_units
  rw [h]

/-- C7: for every `x` with `1e-15 ≤ |x| ≤ 1e12`, decoding the SI-formatted
rendering of `x` succeeds and reproduces `x` to within 0.5% relative error:
the chosen scale satisfies `scale ≤ |x| ≤ 1000 * scale`, so the mantissa is
at least 1 and rounding it to two decimal places moves the value by at most
`scale / 200 ≤ |x| / 200`. -/
theorem C7_roundtrip (x : ℚ) (hlow : 1 / 10 ^ 15 ≤ |x|) (hhigh : |x| ≤ 10 ^ 12) :
    ∃ y, parse_from_number (format_with_units x) = some y ∧
      |y - x| ≤ 5 / 1000 * |x| := by
  obtain ⟨u, sc, hpick, hpos, hle, hub, hsfx⟩ := pickUnitGo_spec x hlow hhigh
  have hfmt : format_with_units x =
      String.mk (intDotChars (round (100 * (x / sc)))) ++ u :=
    format_with_units_eq x u sc hpick
  have hdec := parse_from_number_intDot (round (100 * (x / sc))) u sc hsfx
  refine ⟨((round (100 * (x / sc)) : ℤ) : ℚ) / 100 * sc, ?_, ?_⟩
  · rw [hfmt]
    exact hdec
  · have hround : |((round (100 * (x / sc)) : ℤ) : ℚ) - 100 * (x / sc)| ≤ 1 / 2 := by
      have h0 := abs_sub_round (100 * (x / sc))
      rw [abs_sub_comm] at h0
      exact h0
    have hsc0 : sc ≠ 0 := ne_of_gt hpos
    have hyx : ((round (100 * (x / sc)) : ℤ) : ℚ) / 100 * sc - x =
        sc / 100 * (((round (100 * (x / sc)) : ℤ) : ℚ) - 100 * (x / sc)) := by
      field_simp
      ring
    rw [hyx, abs_mul, abs_of_pos (show (0 : ℚ) < sc / 100 by positivity)]
    calc sc / 100 * |((round (100 * (x / sc)) : ℤ) : ℚ) - 100 * (x / sc)|
        ≤ sc / 100 * (1 / 2) := by
          exact mul_le_mul_of_nonneg_left hround (by positivity)
      _ = sc / 200 := by ring
      _ ≤ |x| / 200 := by linarith
      _ = 5 / 1000 * |x| := by ring

/-- C7 witness: the round trip at `x = 2500` (formatted `"2.50k"`). -/
theorem C7_witness :
    (1 : ℚ) / 10 ^ 15 ≤ |(2500 : ℚ)| ∧ |(2500 : ℚ)| ≤ 10 ^ 12 ∧
      ∃ y, parse_from_number (format_with_units 2500) = some y ∧
        |y - 2500| ≤ 5 / 1000 * |(2500 : ℚ)| :=
  ⟨by norm_num, by norm_num, C7_roundtrip 2500 (by norm_num) (by norm_num)⟩
